import Mathlib

/-!
# A verification model of the `rig` crew/work orchestration core

This file gives a shallow embedding, in Lean 4, of the state-resolution and
lifecycle-orchestration logic of the `rig` command-line tool (Go sources:
`pkg/crew/crew.go`, `pkg/config/config.go`, `pkg/tmux/tmux.go`,
`pkg/git/git.go`, `pkg/work/work.go`), together with theorems settling the
specification's claims about that logic.

Modelling conventions:

* Go strings are modelled as `List Char` (`GoStr`); Go `len` on the
  ASCII names the validation rules deal with coincides with list length.
* The filesystem, the git repository backing a rig, and the tmux server are
  modelled as explicit pure state (`World`, `FS`); external calls that can
  fail independently of that state (process spawning, the interactive
  terminal) draw their outcomes from an explicit oracle (`Ext`).
* Effectful operations additionally record a trace of backend calls
  (`Call`), so ordering and frame properties ("asks before killing",
  "no cleanup call is made") are stated on the trace.
* `filepath.Join` / `filepath.Dir` / `filepath.Base` / `filepath.Rel` are
  modelled for the clean, absolute, `/`-separated paths this tool builds.
-/

set_option maxRecDepth 4000

/-- Go strings, modelled as lists of characters. -/
abbrev GoStr := List Char

/-- Character class of Go's regexp `\s` (`[\t\n\f\r ]`). -/
def isReSpace (c : Char) : Bool :=
  c = '\t' ∨ c = '\n' ∨ c = '\x0c' ∨ c = '\r' ∨ c = ' '

/-- Character class of `unicode.IsSpace` restricted to ASCII
(`strings.TrimSpace` uses it): `\t \n \v \f \r ' '`. -/
def isUniSpace (c : Char) : Bool :=
  c = '\t' ∨ c = '\n' ∨ c = '\x0b' ∨ c = '\x0c' ∨ c = '\r' ∨ c = ' '

/-- Drop the maximal run of regexp whitespace (`\s*`). -/
def dropReSpace (l : GoStr) : GoStr := l.dropWhile isReSpace

/-- Model of `strings.TrimSpace` (ASCII inputs). -/
def trimSpace (l : GoStr) : GoStr :=
  ((l.dropWhile isUniSpace).reverse.dropWhile isUniSpace).reverse

/-- ASCII lower-casing of one character, as `strings.ToLower` does per byte. -/
def lowerChar (c : Char) : Char :=
  if 'A' ≤ c ∧ c ≤ 'Z' then Char.ofNat (c.toNat + 32) else c

/-- Model of `strings.ToLower` (ASCII). -/
def toLowerStr (l : GoStr) : GoStr := l.map lowerChar

/-- Split a list at every occurrence of `sep` (model of `strings.Split`
with a one-character separator; never returns `[]`). -/
def splitOnChar (sep : Char) : GoStr → List GoStr
  | [] => [[]]
  | c :: rest =>
    if c = sep then [] :: splitOnChar sep rest
    else
      match splitOnChar sep rest with
      | [] => [[c]]
      | h :: t => (c :: h) :: t

/-- Join segments with a separator character (model of `strings.Join`
with a one-character separator). -/
def joinChar (sep : Char) : List GoStr → GoStr
  | [] => []
  | [s] => s
  | s :: rest => s ++ sep :: joinChar sep rest

/-- Drop the common prefix of two segment lists (the shared leading
directories used by `filepath.Rel`). -/
def dropCommon : List GoStr → List GoStr → (List GoStr × List GoStr)
  | a :: as, b :: bs => if a = b then dropCommon as bs else (a :: as, b :: bs)
  | as, bs => (as, bs)

/-- Model of `filepath.Base` for clean `/`-separated paths without a
trailing slash: the final path element. -/
def fpBase (p : GoStr) : GoStr :=
  match (splitOnChar '/' p).reverse with
  | [] => p
  | s :: _ => s

/-- Model of `filepath.Rel` for clean absolute `/`-separated paths:
strip the common directory prefix, prepend one `..` per remaining base
segment, and join; `.` when the paths coincide. -/
def fpRel (basep targp : GoStr) : GoStr :=
  let cut := dropCommon (splitOnChar '/' basep) (splitOnChar '/' targp)
  let segs := (List.replicate cut.1.length ("..".toList)) ++ cut.2
  match segs with
  | [] => ".".toList
  | _ => joinChar '/' segs

/-! ## `pkg/tmux`: session-name normalization and the session table

The tmux server itself stores sessions under normalized names (it converts
periods to underscores); the model keeps the session table as the list of
stored (normalized) names. -/

/-- `tmux.NormalizeSessionName`: replace every period by an underscore
(`strings.ReplaceAll(name, ".", "_")`). -/
def NormalizeSessionName (name : GoStr) : GoStr :=
  name.map (fun c => if c = '.' then '_' else c)

/-- `tmux.SessionExists`: normalizes, then asks the server
(`tmux has-session`). -/
def SessionExists (sessions : List GoStr) (name : GoStr) : Bool :=
  NormalizeSessionName name ∈ sessions

/-- State effect of `tmux.KillSession`: normalizes, then kills. -/
def killSessionState (sessions : List GoStr) (name : GoStr) : List GoStr :=
  sessions.filter (· ≠ NormalizeSessionName name)

/-- State effect of `tmux.CreateCrewSession` on success: the server
registers the session under its normalized name. -/
def createSessionState (sessions : List GoStr) (name : GoStr) : List GoStr :=
  NormalizeSessionName name :: sessions

/-- The session name `tmux.AttachSession` actually targets after its own
normalization step. -/
def attachTarget (name : GoStr) : GoStr := NormalizeSessionName name

/-! ## `pkg/config`: configuration and path naming -/

/-- `config.Config`. -/
structure Config where
  rigsBase : GoStr
  crewBase : GoStr
  useCC : Bool
  defaultBranch : GoStr
  deriving Repr, DecidableEq

/-- `Config.GetRepoPath`: `filepath.Join(RigsBase, name)`. -/
def Config.getRepoPath (c : Config) (name : GoStr) : GoStr :=
  c.rigsBase ++ '/' :: name

/-- `Config.GetCrewPath`: `filepath.Join(CrewBase, rig, name)`. -/
def Config.getCrewPath (c : Config) (rig name : GoStr) : GoStr :=
  c.crewBase ++ '/' :: rig ++ '/' :: name

/-- `Config.GetCrewSessionName`: `rig + "@" + name`. -/
def Config.getCrewSessionName (_c : Config) (rig name : GoStr) : GoStr :=
  rig ++ '@' :: name

/-- `Config.GetCrewBranchName`: `name + "/work"`. -/
def Config.getCrewBranchName (_c : Config) (name : GoStr) : GoStr :=
  name ++ "/work".toList

/-! ## `pkg/crew`: name validation -/

/-- Match of the regexp `^[.-]`: the first character is `.` or `-`. -/
def leadingDotDash : GoStr → Bool
  | c :: _ => c = '.' ∨ c = '-'
  | [] => false

/-- `crew.ValidateCrewName`: rejects the empty name, any of `/ \ : @`,
a leading `.` or `-` (regexp `^[.-]`), and names longer than 50
(Go `len`, byte length; names here are ASCII so list length). -/
def ValidateCrewName (name : GoStr) : Except GoStr Unit :=
  if name = [] then .error ("crew name cannot be empty".toList)
  else if name.any (fun c => c = '/' ∨ c = '\\' ∨ c = ':' ∨ c = '@') then
    .error ("crew name cannot contain special characters".toList)
  else if leadingDotDash name then
    .error ("crew name cannot start with . or -".toList)
  else if name.length > 50 then
    .error ("crew name too long (max 50 chars)".toList)
  else .ok ()

/-! ## `pkg/git`: per-repository backend state

`Add` and `Remove` operate on a single repository (`cfg.GetRepoPath rig`);
`GitState` is the model of that repository's branch and worktree
registration state. `remoteHead` is the branch name recorded by
`refs/remotes/origin/HEAD` (`none` when `git symbolic-ref` fails). -/

structure GitState where
  branches : List GoStr
  worktrees : List GoStr
  remoteHead : Option GoStr
  deriving Repr, DecidableEq

/-- `git.BranchExists` (`git show-ref --verify refs/heads/<b>`). -/
def BranchExists (g : GitState) (branch : GoStr) : Bool :=
  branch ∈ g.branches

/-- `git.GetBaseBranch`: the remote's recorded default branch when it
exists locally; else the configured default; else the first of
`main`, `master`, `develop` that exists; else an error. -/
def GetBaseBranch (g : GitState) (defaultBranch : GoStr) : Except GoStr GoStr :=
  match g.remoteHead with
  | some branch =>
    if branch ≠ [] ∧ BranchExists g branch then .ok branch
    else getBaseBranchFallback g defaultBranch
  | none => getBaseBranchFallback g defaultBranch
where
  /-- The fall-through chain after the `origin/HEAD` probe. -/
  getBaseBranchFallback (g : GitState) (defaultBranch : GoStr) :
      Except GoStr GoStr :=
    if BranchExists g defaultBranch then .ok defaultBranch
    else if BranchExists g ("main".toList) then .ok ("main".toList)
    else if BranchExists g ("master".toList) then .ok ("master".toList)
    else if BranchExists g ("develop".toList) then .ok ("develop".toList)
    else .error ("could not find base branch".toList)

/-! ## The combined world state and call trace -/

/-- Combined state: filesystem directories that exist (`os.Stat` succeeds),
live tmux sessions (stored under normalized names), and the git state of
the rig's repository. -/
structure World where
  dirs : List GoStr
  sessions : List GoStr
  git : GitState
  deriving Repr, DecidableEq

/-- `git.IsGitRepo`: `os.Stat(filepath.Join(path, ".git"))` succeeds. -/
def IsGitRepo (w : World) (path : GoStr) : Bool :=
  (path ++ "/.git".toList) ∈ w.dirs

/-- One backend call, as recorded in an operation's trace. -/
inductive Call where
  | mkdirAll (dir : GoStr)
  | createWorktree (path branch base : GoStr)
  | createWorktreeFromExisting (path branch : GoStr)
  | removeWorktree (path : GoStr)
  | pruneWorktrees
  | deleteBranch (branch : GoStr)
  | createCrewSession (session path : GoStr)
  | killSession (session : GoStr)
  | attachSession (session : GoStr)
  | promptUseExistingBranch (branch : GoStr)
  | promptDeleteBranch (branch : GoStr)
  | warnInsideSession (session : GoStr)
  | removeDir (dir : GoStr)
  deriving Repr, DecidableEq

/-- Outcomes of the external calls whose success is not determined by the
modelled state: worktree creation, session creation, attaching, and the
single interactive `fmt.Scanln` answer an operation may read. -/
structure Oracle where
  worktreeOk : Bool
  worktreeFromExistingOk : Bool
  sessionOk : Bool
  attachOk : Bool
  response : GoStr
  deriving Repr, DecidableEq

deriving instance DecidableEq for Except

/-- Result of a crew operation: the returned error or success, the final
world, and the trace of backend calls made. -/
structure CrewResult where
  res : Except GoStr Unit
  world : World
  trace : List Call
  deriving Repr, DecidableEq

/-- `os.MkdirAll` on the model: record the directory (parents elided). -/
def mkdirAllState (w : World) (dir : GoStr) : World :=
  { w with dirs := if dir ∈ w.dirs then w.dirs else dir :: w.dirs }

/-- State effect of a successful `git.CreateWorktree`: the new branch is
created and the worktree directory appears and is registered. -/
def createWorktreeState (w : World) (path branch : GoStr) : World :=
  { w with
    dirs := path :: w.dirs
    git := { w.git with
      branches := branch :: w.git.branches
      worktrees := path :: w.git.worktrees } }

/-- State effect of a successful `git.CreateWorktreeFromExisting`: the
worktree directory appears and is registered; the branch already exists. -/
def createWorktreeFromExistingState (w : World) (path : GoStr) : World :=
  { w with
    dirs := path :: w.dirs
    git := { w.git with worktrees := path :: w.git.worktrees } }

/-- `git worktree remove --force`: for a registered worktree, deletes the
directory and deregisters it; git refuses (error, ignored by callers) for
an unregistered path, leaving the state unchanged. -/
def removeWorktreeState (w : World) (path : GoStr) : World :=
  if path ∈ w.git.worktrees then
    { w with
      dirs := w.dirs.filter (· ≠ path)
      git := { w.git with worktrees := w.git.worktrees.filter (· ≠ path) } }
  else w

/-- `git worktree prune`: drop registrations whose directories are gone. -/
def pruneWorktreesState (w : World) : World :=
  { w with git := { w.git with worktrees := w.git.worktrees.filter (· ∈ w.dirs) } }

/-- `git branch -D`. -/
def deleteBranchState (w : World) (branch : GoStr) : World :=
  { w with git := { w.git with branches := w.git.branches.filter (· ≠ branch) } }

/-- `os.Remove` of an (empty) directory. -/
def removeDirState (w : World) (dir : GoStr) : World :=
  { w with dirs := w.dirs.filter (· ≠ dir) }

/-- `crew.cleanupWorktree`: remove the worktree, prune stale metadata,
and delete the branch — unconditionally, in that order. -/
def cleanupWorktree (w : World) (crewPath branchName : GoStr) : World :=
  deleteBranchState (pruneWorktreesState (removeWorktreeState w crewPath)) branchName

/-- The trace of `crew.cleanupWorktree`. -/
def cleanupTrace (crewPath branchName : GoStr) : List Call :=
  [.removeWorktree crewPath, .pruneWorktrees, .deleteBranch branchName]

/-- Result of `tmux.AttachSession` (state-independent; its target is the
normalized session name). -/
def attachResult (ext : Oracle) : Except GoStr Unit :=
  if ext.attachOk then .ok () else .error ("attach failed".toList)

/-- Is `p` a direct child of directory `d` (`p = d + "/" + entry` with a
nonempty, slash-free entry)? Used to model `os.ReadDir`. -/
def isChildOf (d p : GoStr) : Bool :=
  match stripPre (d ++ ['/']) p with
  | some rest => rest ≠ [] && !(rest.any (· = '/'))
  | none => false
where
  /-- Strip an exact leading segment, or fail. -/
  stripPre : GoStr → GoStr → Option GoStr
    | [], l => some l
    | _ :: _, [] => none
    | a :: as, b :: bs => if a = b then stripPre as bs else none

/-- `os.ReadDir` on the model: the directories lying directly under `d`. -/
def dirEntries (w : World) (d : GoStr) : List GoStr :=
  w.dirs.filter (isChildOf d)

/-! ## `crew.Add` -/

/-- The tail of `crew.Add`'s fresh-create path shared by both worktree
branches: create the tmux session (rolling the worktree back via
`cleanupWorktree` on failure) and attach. -/
def addFinish (ext : Oracle) (w : World) (tr : List Call)
    (crewPath sessionName branchName : GoStr) : CrewResult :=
  if ext.sessionOk then
    ⟨attachResult ext,
      { w with sessions := createSessionState w.sessions sessionName },
      tr ++ [.createCrewSession sessionName crewPath, .attachSession sessionName]⟩
  else
    ⟨.error ("failed to create session".toList),
      cleanupWorktree w crewPath branchName,
      tr ++ [.createCrewSession sessionName crewPath] ++ cleanupTrace crewPath branchName⟩

/-- `crew.Add`: validate the name, require the repository, resolve the
base branch, then either attach/recreate on the idempotency branch
(worktree directory already present) or create branch+worktree+session
fresh, with the rollback behaviour of the Go source. -/
def Crew.Add (cfg : Config) (ext : Oracle) (w : World) (name rigName : GoStr) : CrewResult :=
  match ValidateCrewName name with
  | .error e => ⟨.error e, w, []⟩
  | .ok _ =>
  let repoPath := cfg.getRepoPath rigName
  if ¬ IsGitRepo w repoPath then
    ⟨.error ("repo not found: ".toList ++ repoPath), w, []⟩
  else
  let crewPath := cfg.getCrewPath rigName name
  let sessionName := cfg.getCrewSessionName rigName name
  let branchName := cfg.getCrewBranchName name
  match GetBaseBranch w.git cfg.defaultBranch with
  | .error e => ⟨.error e, w, []⟩
  | .ok baseBranch =>
  if crewPath ∈ w.dirs then
    -- idempotency branch: the worktree directory already exists
    if SessionExists w.sessions sessionName then
      ⟨attachResult ext, w, [.attachSession sessionName]⟩
    else if ext.sessionOk then
      ⟨attachResult ext,
        { w with sessions := createSessionState w.sessions sessionName },
        [.createCrewSession sessionName crewPath, .attachSession sessionName]⟩
    else
      ⟨.error ("failed to recreate session".toList), w,
        [.createCrewSession sessionName crewPath]⟩
  else
  -- fresh-create branch
  let parentDir := cfg.crewBase ++ '/' :: rigName
  let w1 := mkdirAllState w parentDir
  let tr1 : List Call := [.mkdirAll parentDir]
  if BranchExists w1.git branchName then
    let tr2 := tr1 ++ [.promptUseExistingBranch branchName]
    if toLowerStr ext.response = "n".toList then
      ⟨.error ("cancelled".toList), w1, tr2⟩
    else if ext.worktreeFromExistingOk then
      addFinish ext (createWorktreeFromExistingState w1 crewPath)
        (tr2 ++ [.createWorktreeFromExisting crewPath branchName])
        crewPath sessionName branchName
    else
      -- NOTE: the Go source returns here without any cleanup
      ⟨.error ("failed to create worktree from existing branch".toList), w1,
        tr2 ++ [.createWorktreeFromExisting crewPath branchName]⟩
  else if ext.worktreeOk then
    addFinish ext (createWorktreeState w1 crewPath branchName)
      (tr1 ++ [.createWorktree crewPath branchName baseBranch])
      crewPath sessionName branchName
  else
    ⟨.error ("failed to create worktree".toList),
      cleanupWorktree w1 crewPath branchName,
      tr1 ++ [.createWorktree crewPath branchName baseBranch]
        ++ cleanupTrace crewPath branchName⟩

/-! ## `crew.Remove` -/

/-- `crew.Remove`: reconcile {worktree directory exists} × {git knows the
worktree}, with `current` the session name reported by
`tmux display-message` (empty when not inside tmux). -/
def Crew.Remove (cfg : Config) (ext : Oracle) (current : GoStr) (w : World)
    (name rigName : GoStr) : CrewResult :=
  match ValidateCrewName name with
  | .error e => ⟨.error e, w, []⟩
  | .ok _ =>
  let repoPath := cfg.getRepoPath rigName
  if ¬ IsGitRepo w repoPath then
    ⟨.error ("repo not found: ".toList ++ repoPath), w, []⟩
  else
  let crewPath := cfg.getCrewPath rigName name
  let sessionName := cfg.getCrewSessionName rigName name
  let branchName := cfg.getCrewBranchName name
  let worktreeDirExists : Bool := decide (crewPath ∈ w.dirs)
  let worktreeInGit : Bool := decide (crewPath ∈ w.git.worktrees)
  -- detached state: git knows about it but the directory is gone
  let detachedCleanup : Bool := worktreeInGit && !worktreeDirExists
  let w1 := if detachedCleanup then pruneWorktreesState (removeWorktreeState w crewPath) else w
  let tr1 : List Call :=
    if detachedCleanup then [.removeWorktree crewPath, .pruneWorktrees] else []
  let worktreeInGit1 : Bool := if detachedCleanup then false else worktreeInGit
  if !worktreeDirExists && !worktreeInGit1 then
    if SessionExists w1.sessions sessionName then
      ⟨.ok (), { w1 with sessions := killSessionState w1.sessions sessionName },
        tr1 ++ [.killSession sessionName]⟩
    else ⟨.error ("crew workspace not found: ".toList ++ crewPath), w1, tr1⟩
  else
  -- warn if the caller is inside this session; the Go source compares the
  -- raw `sessionName` with the (normalized) name tmux reports
  let tr2 := tr1 ++
    (if SessionExists w1.sessions sessionName && decide (current = sessionName) then
      [.warnInsideSession sessionName] else [])
  -- ask about branch deletion BEFORE killing the session
  let branchThere : Bool := BranchExists w1.git branchName
  let deleteBr : Bool := branchThere && !(toLowerStr ext.response = "n".toList : Bool)
  let tr3 := tr2 ++ (if branchThere then [.promptDeleteBranch branchName] else [])
  let s1 :=
    if SessionExists w1.sessions sessionName then
      ({ w1 with sessions := killSessionState w1.sessions sessionName },
        tr3 ++ [.killSession sessionName])
    else (w1, tr3)
  let s2 :=
    if worktreeDirExists then
      (removeWorktreeState s1.1 crewPath, s1.2 ++ [.removeWorktree crewPath])
    else s1
  let w4 := pruneWorktreesState s2.1
  let tr6 := s2.2 ++ [.pruneWorktrees]
  let s3 :=
    if deleteBr then (deleteBranchState w4 branchName, tr6 ++ [.deleteBranch branchName])
    else (w4, tr6)
  let repoDir := cfg.crewBase ++ '/' :: rigName
  let s4 :=
    if decide (repoDir ∈ s3.1.dirs) && decide (dirEntries s3.1 repoDir = []) then
      (removeDirState s3.1 repoDir, s3.2 ++ [.removeDir repoDir])
    else s3
  ⟨.ok (), s4.1, s4.2⟩

/-- The state after `Remove`'s main teardown when the branch is kept:
session killed, worktree removed, metadata pruned. -/
def removeKeepState (cfg : Config) (w : World) (name rigName : GoStr) : World :=
  pruneWorktreesState (removeWorktreeState
    { w with sessions := killSessionState w.sessions (cfg.getCrewSessionName rigName name) }
    (cfg.getCrewPath rigName name))

/-- The teardown state when the user also confirms branch deletion. -/
def removeFullState (cfg : Config) (w : World) (name rigName : GoStr) : World :=
  deleteBranchState (removeKeepState cfg w name rigName) (cfg.getCrewBranchName name)

/-- The teardown trace without branch deletion. -/
def removeKeepTrace (cfg : Config) (name rigName : GoStr) : List Call :=
  [.promptDeleteBranch (cfg.getCrewBranchName name),
   .killSession (cfg.getCrewSessionName rigName name),
   .removeWorktree (cfg.getCrewPath rigName name),
   .pruneWorktrees]

/-- The teardown trace with branch deletion. -/
def removeFullTrace (cfg : Config) (name rigName : GoStr) : List Call :=
  removeKeepTrace cfg name rigName ++ [.deleteBranch (cfg.getCrewBranchName name)]

/-- `Remove`'s final step: delete the worker's parent repo directory if it
exists and is now empty. -/
def removeParentStep (cfg : Config) (rigName : GoStr) (s : World × List Call) :
    World × List Call :=
  if decide ((cfg.crewBase ++ '/' :: rigName) ∈ s.1.dirs) &&
      decide (dirEntries s.1 (cfg.crewBase ++ '/' :: rigName) = []) then
    (removeDirState s.1 (cfg.crewBase ++ '/' :: rigName),
     s.2 ++ [.removeDir (cfg.crewBase ++ '/' :: rigName)])
  else s

/-! ## `crew.InferRig` -/

/-- The ambient environment `InferRig` reads (all queries, no mutation):
the working directory (`os.Getwd`, `none` on failure), the result of
`git rev-parse --show-toplevel` per starting directory, the set of existing
directories (for `git.IsGitRepo`), and the current tmux session name
(`""` when not inside tmux). -/
structure InferEnv where
  pwd : Option GoStr
  repoRoot : GoStr → Option GoStr
  dirs : List GoStr
  currentSession : GoStr

/-- `git.IsGitRepo` against the environment's directory set. -/
def isGitRepoDirs (dirs : List GoStr) (path : GoStr) : Bool :=
  (path ++ "/.git".toList) ∈ dirs

/-- The two working-directory probes of `crew.InferRig` (under the
repositories root, then under the workers root), `none` when both fall
through. `pwd` is assumed absolute (`filepath.Abs` is the identity). -/
def inferFromPwd (cfg : Config) (env : InferEnv) : Option GoStr :=
  match env.pwd with
  | none => none
  | some pwd =>
    let fromRigs : Option GoStr :=
      if (cfg.rigsBase ++ ['/']).isPrefixOf pwd then
        (env.repoRoot pwd).map fpBase
      else none
    match fromRigs with
    | some r => some r
    | none =>
      if (cfg.crewBase ++ ['/']).isPrefixOf pwd then
        match env.repoRoot pwd with
        | some root =>
          let relPath := fpRel cfg.crewBase root
          match splitOnChar '/' relPath with
          | p :: _ => some p
          | [] => none
        | none => none
      else none

/-- `crew.InferRig`: explicit argument verbatim; else the pwd probes; else
the active tmux session (`<rig>@<name>` → the part before `@`; a bare name
only when it names a real repository); else an error. Pure — reads the
environment, mutates nothing. -/
def InferRig (cfg : Config) (env : InferEnv) (explicitRig : GoStr) :
    Except GoStr GoStr :=
  if explicitRig ≠ [] then .ok explicitRig
  else
    match inferFromPwd cfg env with
    | some r => .ok r
    | none =>
      let sessionName := env.currentSession
      if sessionName ≠ [] then
        if '@' ∈ sessionName then
          match splitOnChar '@' sessionName with
          | p :: _ => .ok p
          | [] => .error ("could not infer rig".toList)
        else if isGitRepoDirs env.dirs (cfg.getRepoPath sessionName) then
          .ok sessionName
        else .error ("could not infer rig".toList)
      else .error ("could not infer rig".toList)

/-! ## `pkg/work`: progress documents

`ParseProgress` reads a file and scans it line by line; the model takes the
document as its list of lines (the `bufio.Scanner` view). The Go regexes
are embedded structurally:

* `(?i)^##\s*Status:\s*(.+)$`
* `(?i)^##\s*Assigned to:\s*(.*)$`
* `(?i)^##\s*Checklist\s*$` and `(?i)^##\s*Notes\s*$`
* `^-\s*\[([ xX])\]\s*(.+)$`

For the `\s*(.+)$` tails, the captured group after the `strings.TrimSpace`
the Go code applies equals `trimSpace` of the whole remainder, and the
match succeeds exactly when that remainder is nonempty; the embedding uses
that equivalent form directly. -/

/-- `work.Task`. -/
structure Work.Task where
  done : Bool
  description : GoStr
  deriving Repr, DecidableEq

/-- `work.Progress`. -/
structure Work.Progress where
  status : GoStr
  assignedTo : GoStr
  tasks : List Work.Task
  notes : GoStr
  deriving Repr, DecidableEq

/-- Strip `pat` from the head of `l`, comparing ASCII
case-insensitively (the Go regexes carry `(?i)`). -/
def stripCI : GoStr → GoStr → Option GoStr
  | [], l => some l
  | _ :: _, [] => none
  | p :: ps, c :: cs => if lowerChar c = lowerChar p then stripCI ps cs else none

/-- Common shape `^##\s*<keyword>` of the header regexes: returns the
remainder after the keyword. -/
def matchHeaderCI (keyword : GoStr) (line : GoStr) : Option GoStr :=
  match line with
  | '#' :: '#' :: rest => stripCI keyword (dropReSpace rest)
  | _ => none

/-- Match of `(?i)^##\s*Status:\s*(.+)$`, returning the trimmed capture. -/
def matchStatus (line : GoStr) : Option GoStr :=
  match matchHeaderCI ("status:".toList) line with
  | some r => if r = [] then none else some (trimSpace r)
  | none => none

/-- Match of `(?i)^##\s*Assigned to:\s*(.*)$`, returning the trimmed
capture (`.*` also matches the empty remainder). -/
def matchAssigned (line : GoStr) : Option GoStr :=
  (matchHeaderCI ("assigned to:".toList) line).map trimSpace

/-- Match of `(?i)^##\s*<keyword>\s*$` (the checklist / notes section
headers). -/
def matchSection (keyword : GoStr) (line : GoStr) : Bool :=
  match matchHeaderCI keyword line with
  | some r => dropReSpace r = []
  | none => false

/-- Match of `^-\s*\[([ xX])\]\s*(.+)$`: the bracket character and the
trimmed description. -/
def matchTask (line : GoStr) : Option (Char × GoStr) :=
  match line with
  | '-' :: rest =>
    match dropReSpace rest with
    | '[' :: c :: ']' :: rest2 =>
      if c = ' ' ∨ c = 'x' ∨ c = 'X' then
        if rest2 = [] then none else some (c, trimSpace rest2)
      else none
    | _ => none
  | _ => none

/-- The scanner state of `work.ParseProgress`'s loop. -/
structure PState where
  status : GoStr
  assignedTo : GoStr
  tasks : List Work.Task
  notesLines : List GoStr
  inChecklist : Bool
  inNotes : Bool
  deriving Repr, DecidableEq

/-- The task-recording step of the scan loop (`if inChecklist { ... }`). -/
def parseTaskStep (st : PState) (line : GoStr) : PState :=
  if st.inChecklist then
    match matchTask line with
    | some (c, d) =>
      { st with tasks := st.tasks ++ [⟨c = 'x' ∨ c = 'X', d⟩] }
    | none => st
  else st

/-- The notes-collecting step of the scan loop
(`if inNotes && strings.TrimSpace(line) != "" { ... }`). -/
def parseNotesStep (st : PState) (line : GoStr) : PState :=
  if st.inNotes then
    if trimSpace line ≠ [] then { st with notesLines := st.notesLines ++ [line] }
    else st
  else st

/-- One iteration of `work.ParseProgress`'s scan loop: the header matches
(each with `continue`), then the task step, then the notes step. -/
def parseLine (st : PState) (line : GoStr) : PState :=
  match matchStatus line with
  | some v => { st with status := v }
  | none =>
  match matchAssigned line with
  | some v => { st with assignedTo := v }
  | none =>
  if matchSection ("checklist".toList) line then
    { st with inChecklist := true, inNotes := false }
  else if matchSection ("notes".toList) line then
    { st with inNotes := true, inChecklist := false }
  else
    parseNotesStep (parseTaskStep st line) line

/-- `work.ParseProgress` over the document's lines. Total: malformed lines
are skipped, never fatal. (The Go function can fail only when the file
itself cannot be read.) -/
def ParseProgress (lines : List GoStr) : Work.Progress :=
  let st := lines.foldl parseLine ⟨[], [], [], [], false, false⟩
  { status := st.status
    assignedTo := st.assignedTo
    tasks := st.tasks
    notes := joinChar '\n' st.notesLines }

/-- The scan inside `Progress.GetCurrentTask`. -/
def currentFrom : List Work.Task → GoStr
  | [] => []
  | t :: ts => if t.done then currentFrom ts else t.description

/-- `Progress.GetCurrentTask`: the first unchecked task's description, or
the empty string when every task is done (or there are none). -/
def GetCurrentTask (p : Work.Progress) : GoStr :=
  currentFrom p.tasks

/-! ## `pkg/work`: scaffolding and hook generation

The filesystem relevant to the work package is modelled as the set of
existing directories plus a path→content map for regular files. -/

/-- Filesystem model for the work package. -/
structure FS where
  dirs : List GoStr
  files : List (GoStr × GoStr)
  deriving Repr, DecidableEq

/-- `os.Stat` on a file path succeeds. -/
def statFile (fs : FS) (p : GoStr) : Bool :=
  fs.files.any (fun e => e.1 = p)

/-- Look a file's content up. -/
def findFile : List (GoStr × GoStr) → GoStr → Option GoStr
  | [], _ => none
  | (q, c) :: rest, p => if q = p then some c else findFile rest p

/-- `os.WriteFile`: create or overwrite. -/
def setFile : List (GoStr × GoStr) → GoStr → GoStr → List (GoStr × GoStr)
  | [], p, c => [(p, c)]
  | (q, d) :: rest, p, c => if q = p then (p, c) :: rest else (q, d) :: setFile rest p c

/-- `os.WriteFile` on the model. -/
def writeFile (fs : FS) (p c : GoStr) : FS :=
  { fs with files := setFile fs.files p c }

/-- `os.MkdirAll` on the model (parents elided; no-op when present). -/
def mkdirAllFS (fs : FS) (dir : GoStr) : FS :=
  { fs with dirs := if dir ∈ fs.dirs then fs.dirs else dir :: fs.dirs }

/-- `work.GetWorkPath`: `filepath.Join(repoPath, "work", workName)`. -/
def GetWorkPath (repoPath workName : GoStr) : GoStr :=
  repoPath ++ "/work/".toList ++ workName

/-- `work.GetFormulaPath`:
`filepath.Join(repoPath, "work", "formula", formulaName + ".md")`. -/
def GetFormulaPath (repoPath formulaName : GoStr) : GoStr :=
  repoPath ++ "/work/formula/".toList ++ formulaName ++ ".md".toList

/-- ASCII letter test (for the `strings.Title` model). -/
def isAsciiLetter (c : Char) : Bool :=
  ('a' ≤ c ∧ c ≤ 'z') ∨ ('A' ≤ c ∧ c ≤ 'Z')

/-- ASCII upper-casing of one character. -/
def upperChar (c : Char) : Char :=
  if 'a' ≤ c ∧ c ≤ 'z' then Char.ofNat (c.toNat - 32) else c

/-- Scan for `strings.Title` (ASCII model): upper-case every letter whose
predecessor is not a letter. The flag is "previous character was a
letter". -/
def goTitleAux : Bool → GoStr → GoStr
  | _, [] => []
  | prevLetter, c :: rest =>
    (if prevLetter then c else upperChar c) :: goTitleAux (isAsciiLetter c) rest

/-- Model of `strings.Title` (ASCII). -/
def goTitle (s : GoStr) : GoStr := goTitleAux false s

/-- `strings.ReplaceAll` with one-character old/new. -/
def replaceAllChar (l : GoStr) (old new : Char) : GoStr :=
  l.map (fun c => if c = old then new else c)

/-- The display name the templates interpolate:
`strings.Title(strings.ReplaceAll(workName, "-", " "))`. -/
def titleName (workName : GoStr) : GoStr :=
  goTitle (replaceAllChar workName '-' ' ')

/-- `work.getSpecTemplate`. -/
def getSpecTemplate (workName : GoStr) : GoStr :=
  "# Spec: ".toList ++ titleName workName ++
  "\n\n## Overview\n\n[Brief description of what this work aims to accomplish]\n\n## Problem\n\n[What problem are we solving?]\n\n## Goals\n\n[What are the specific objectives?]\n\n## Non-Goals\n\n[What are we explicitly not doing?]\n\n## User Experience\n\n[How will users interact with this feature?]\n\n## Success Criteria\n\n[How do we know when this is complete?]\n".toList

/-- `work.getDesignTemplate`. -/
def getDesignTemplate (workName : GoStr) : GoStr :=
  "# Design: ".toList ++ titleName workName ++
  "\n\n## Architecture\n\n[High-level architectural approach]\n\n## Components\n\n[Key components and their responsibilities]\n\n## Implementation Details\n\n[Detailed technical approach]\n\n## Risk Areas\n\n[What could go wrong? How will we mitigate?]\n".toList

/-- `work.getBreakdownTemplate`. -/
def getBreakdownTemplate (workName : GoStr) : GoStr :=
  "# Implementation Breakdown: ".toList ++ titleName workName ++
  "\n\n## Tasks\n\n1. [Task 1]\n2. [Task 2]\n3. [Task 3]\n\n[Add as many tasks as needed with clear done criteria]\n".toList

/-- `work.getProgressTemplate`. -/
def getProgressTemplate (workName : GoStr) : GoStr :=
  "# Progress: ".toList ++ titleName workName ++
  "\n\n## Status: Not Started\n## Assigned to:\n\n## Checklist\n- [ ] Spec review\n- [ ] Initial design\n- [ ] Design review\n- [ ] Implementation breakdown\n- [ ] Implementation\n- [ ] Code review\n- [ ] Testing\n- [ ] Push feature branch\n- [ ] Cleanup crew workspace\n\n## Notes\n".toList

/-- `work.getDefaultFormulaContent` (the seeded `build` formula). -/
def getDefaultFormulaContent : GoStr :=
  "\n# Feature Implementation Formula\n\nAutonomous end-to-end feature implementation with built-in quality gates.\nTakes a spec, designs the approach, implements the solution, validates\nwith tests, and commits to local git repo.\n\n## Process\n\n### Phase 1: Spec Review (Read-Only)\n1. Read the spec thoroughly\n2. Identify what exists vs what's new\n3. List dependencies on other systems/modules\n4. Flag critical gaps:\n   - Missing acceptance criteria\n   - Unclear requirements\n   - Ambiguous edge cases\n\n**Gate:** If critical gaps exist, create `CLARIFICATIONS.md` and STOP. Otherwise continue.\n\n### Phase 2: Design\n1. Survey existing codebase for patterns to follow\n2. Identify files to create/modify\n3. Design module structure and interfaces\n4. Plan test strategy (unit, integration, e2e)\n5. Update `design.md` with:\n   - Files to change\n   - New abstractions needed\n   - Testing approach\n   - Risk areas\n6. **Commit progress:** `git commit -am \"docs: complete design phase\"`\n\n**Gate:** Review design. If major concerns, revise. Otherwise continue.\n\n### Phase 3: Implementation Planning\n1. Break design into tasks in `breakdown.md`. Each task should:\n   - Be completable in one session\n   - Have clear done criteria\n   - Be independently testable\n   - Produce a commit\n2. Update progress.md checklist with specific tasks\n3. **Commit progress:** `git commit -am \"docs: create implementation breakdown\"`\n\n### Phase 4: Implementation\nFor each task:\n1. Mark task as in progress in `progress.md`\n2. Work on task until done criteria met\n3. Run relevant tests\n4. **Commit with message:** `feat: [task description]`\n5. Mark task complete in `progress.md`\n\n**Gate:** After each task, verify tests pass. If fail, fix before next task.\n\n### Phase 5: Review\n1. Read all changed code\n2. Check against spec acceptance criteria\n3. Verify test coverage\n4. Look for:\n   - Performance issues\n   - Security concerns\n   - Error handling gaps\n   - Documentation needs\n5. Create review notes in `progress.md`\n6. **Commit progress:** `git commit -am \"docs: complete code review\"`\n\n**Gate:** If major issues, fix and re-review. Otherwise continue.\n\n### Phase 6: Final Steps\n1. Run full test suite\n2. Update any necessary documentation\n3. Final verification against spec\n4. Update `progress.md` status to \"Ready for Merge\"\n5. **Final commit:** `git commit -am \"docs: mark work ready for merge\"`\n\n## Important Notes\n\n- **Commit intermediate progress at each phase** - This ensures work is always recoverable\n- **Keep progress.md updated** - This is your state tracking mechanism\n- **Each phase should leave work in a consistent state** - Anyone should be able to pick up from any phase\n- **When complete, remind user to:**\n  - Push feature branch: `git push -u origin feat/<feature-name>`\n  - Cleanup crew workspace: `rig crew remove <worker-name>`\n  - Create pull request if needed\n\n## Outputs\n- Updated `design.md` - Design document\n- Updated `breakdown.md` - Implementation tasks\n- Updated `progress.md` - Progress tracking with status\n- Feature implementation with test coverage\n- Git commits following conventional commits\n".toList

/-- The instruction document `work.GenerateHook` writes
(the `fmt.Sprintf` template with its interpolations). -/
def hookContent (workName formulaName : GoStr) : GoStr :=
  "# Hook: ".toList ++ workName ++
  "\n\n## Your Assignment\n\nYou are working on: **".toList ++ workName ++
  "**\n\n## Instructions\n\n1. **Read the workflow formula**: Open and read work/formula/".toList ++ formulaName ++
  ".md\n   - This defines the phases you'll follow\n\n2. **Read the spec**: Open and read work/".toList ++ workName ++
  "/spec.md\n   - This describes what you're building\n\n3. **Follow the formula**: Execute each phase in order\n   - Update work/".toList ++ workName ++
  "/progress.md as you complete tasks\n   - Commit your progress after each phase\n   - Each commit should follow the pattern described in the formula\n\n## Context Files\n\n- Formula: work/formula/".toList ++ formulaName ++
  ".md\n- Spec: work/".toList ++ workName ++
  "/spec.md\n- Design: work/".toList ++ workName ++
  "/design.md\n- Breakdown: work/".toList ++ workName ++
  "/breakdown.md\n- Progress: work/".toList ++ workName ++
  "/progress.md\n\n## Important Notes\n\n- Commit intermediate progress at each phase (don't wait until the end)\n- Keep progress.md updated with your current status\n- Follow the quality gates defined in the formula\n- Ask questions if requirements are unclear\n\nReady? Start by reading the formula and spec files above.\n".toList

/-- `work.EnsureDefaultFormula`: install the default `build` formula only
when `work/formula/build.md` itself does not exist. -/
def EnsureDefaultFormula (fs : FS) (repoPath : GoStr) : FS :=
  let formulaPath := GetFormulaPath repoPath ("build".toList)
  if statFile fs formulaPath then fs
  else
    let formulaDir := repoPath ++ "/work/formula".toList
    writeFile (mkdirAllFS fs formulaDir) formulaPath getDefaultFormulaContent

/-- `work.Create`: scaffold `work/<name>/` and `work/formula/`, write each
of the four template documents only when absent, then seed the default
formula. (Go iterates its file map in unspecified order; the four files
are pairwise distinct, so the literal order is used.) -/
def Work.Create (fs : FS) (repoPath workName : GoStr) : FS :=
  let workPath := GetWorkPath repoPath workName
  let formulaDir := repoPath ++ "/work/formula".toList
  let fs := mkdirAllFS (mkdirAllFS fs workPath) formulaDir
  let files : List (GoStr × GoStr) :=
    [("spec.md".toList, getSpecTemplate workName),
     ("design.md".toList, getDesignTemplate workName),
     ("breakdown.md".toList, getBreakdownTemplate workName),
     ("progress.md".toList, getProgressTemplate workName)]
  let fs := files.foldl (fun fs e =>
    let filePath := workPath ++ '/' :: e.1
    if statFile fs filePath then fs else writeFile fs filePath e.2) fs
  EnsureDefaultFormula fs repoPath

/-- `work.GenerateHook`: fail when the named formula document does not
exist (writing nothing); otherwise write `hook.md` — `os.WriteFile`
overwrites an existing hook. -/
def GenerateHook (fs : FS) (repoPath workName formulaName : GoStr) :
    Except GoStr FS :=
  let workPath := GetWorkPath repoPath workName
  let hookPath := workPath ++ "/hook.md".toList
  let formulaPath := GetFormulaPath repoPath formulaName
  if ¬ statFile fs formulaPath then
    .error ("formula not found: ".toList ++ formulaPath)
  else
    .ok (writeFile fs hookPath (hookContent workName formulaName))

/-- One checklist line of a generated progress document
(the `- [x] ` / `- [ ] ` form the progress template uses). -/
def renderTask (t : Work.Task) : GoStr :=
  (if t.done then "- [x] ".toList else "- [ ] ".toList) ++ t.description

/-- A generated progress document with an arbitrary checklist, after the
spec's words: the layout of `work.getProgressTemplate` with the fixed
nine-item checklist replaced by the given tasks (each rendered as one
checklist line), split into lines. -/
def renderProgressDoc (name : GoStr) (tasks : List Work.Task) : List GoStr :=
  ["# Progress: ".toList ++ name,
   [],
   "## Status: Not Started".toList,
   "## Assigned to:".toList,
   [],
   "## Checklist".toList]
  ++ tasks.map renderTask
  ++ [[], "## Notes".toList]

/-! ## Concrete fixtures used by witnesses and counterexamples -/

/-- A small configuration: repositories under `/g`, workers under `/c`. -/
def cfg0 : Config := ⟨"/g".toList, "/c".toList, false, "main".toList⟩

/-- Oracle: every external call succeeds; prompts answered with the
default (empty) response. -/
def oracleOk : Oracle := ⟨true, true, true, true, []⟩

/-- Oracle: session creation fails, everything else succeeds. -/
def oracleSessionFail : Oracle := ⟨true, true, false, true, []⟩

/-- Oracle: worktree creation from an existing branch fails. -/
def oracleWtExistingFail : Oracle := ⟨true, false, true, true, []⟩

/-- The `demo` repository with only a `main` branch and no crew state. -/
def worldFresh : World :=
  ⟨["/g/demo/.git".toList], [], ⟨["main".toList], [], none⟩⟩

/-- `demo` where worker `bob`'s branch `bob/work` already exists
(no worktree, no session). -/
def worldBranch : World :=
  ⟨["/g/demo/.git".toList], [], ⟨["bob/work".toList, "main".toList], [], none⟩⟩

/-- `demo` with `bob`'s worktree and live session, but no resolvable base
branch: no `origin/HEAD`, and no branch named `main`, `master` or
`develop` — only `trunk` and the worktree's own `bob/work`. -/
def worldNoBase : World :=
  ⟨["/g/demo/.git".toList, "/c/demo/bob".toList], ["demo@bob".toList],
   ⟨["trunk".toList, "bob/work".toList], ["/c/demo/bob".toList], none⟩⟩

/-- `demo` with `bob` fully materialized: worktree on disk and registered,
branch present, session live. -/
def worldFull : World :=
  ⟨["/g/demo/.git".toList, "/c/demo/bob".toList], ["demo@bob".toList],
   ⟨["bob/work".toList, "main".toList], ["/c/demo/bob".toList], none⟩⟩

/-- `demo` where worker `a.b` (a valid crew name containing a period) is
fully materialized; tmux stores the session under the normalized name
`demo@a_b`. -/
def worldDotted : World :=
  ⟨["/g/demo/.git".toList, "/c/demo/a.b".toList], ["demo@a_b".toList],
   ⟨["main".toList], ["/c/demo/a.b".toList], none⟩⟩

/-- `demo` with `bob`'s worktree registered with git but the directory
deleted out-of-band, the session still live. -/
def worldDetached : World :=
  ⟨["/g/demo/.git".toList], ["demo@bob".toList],
   ⟨["main".toList], ["/c/demo/bob".toList], none⟩⟩

/-- Environment for repository inference: the working directory sits two
levels under the workers root at `/c/repoA/workerB/sub`, inside a worktree
whose git toplevel is `/c/repoA/workerB` — so the path-derived repository
name (`repoA`) differs from the worktree's own git-derived directory name
(`workerB`). -/
def envCrewSplit : InferEnv :=
  ⟨some ("/c/repoA/workerB/sub".toList),
   fun p => if p = "/c/repoA/workerB/sub".toList
            then some ("/c/repoA/workerB".toList) else none,
   [], []⟩

/-- A repository filesystem with formulas `build.md` and `alt.md` and a
hook for work item `w` already generated from `build`. -/
def fsHook0 : FS :=
  ⟨[], [(GetFormulaPath ("/r".toList) ("build".toList), "# F".toList),
        (GetFormulaPath ("/r".toList) ("alt".toList), "# G".toList),
        (GetWorkPath ("/r".toList) ("w".toList) ++ "/hook.md".toList,
         hookContent ("w".toList) ("build".toList))]⟩

/-- A repository filesystem whose formula directory holds a formula
document (`custom.md`) but not the default `build.md`. -/
def fsCustom0 : FS :=
  ⟨[], [("/r/work/formula/custom.md".toList, "# C".toList)]⟩

/-- `Except.isOk` as a plain definition (for stating success without
naming the payload). -/
def isOkE {ε α : Type} : Except ε α → Bool
  | .ok _ => true
  | .error _ => false

/-- The claim-side vocabulary of worker-name validation: alphanumeric,
hyphen or underscore. -/
def isWordChar (c : Char) : Bool :=
  ('a' ≤ c ∧ c ≤ 'z') ∨ ('A' ≤ c ∧ c ≤ 'Z') ∨ ('0' ≤ c ∧ c ≤ '9') ∨
  c = '-' ∨ c = '_'

/-! # Theorems -/

/-- C10: worker-name validation accepts every nonempty name of
alphanumerics, hyphens and underscores of length at most 50 that does not
start with `.` or `-`, and rejects every name that is empty, contains
`/`, `\`, `:` or the session separator `@`, starts with `.` or `-`, or is
longer than 50. -/
theorem validateCrewName_spec :
    (∀ (c : Char) (cs : GoStr),
      (∀ x ∈ c :: cs, isWordChar x = true) → c ≠ '.' → c ≠ '-' →
      (c :: cs).length ≤ 50 →
      ValidateCrewName (c :: cs) = .ok ()) ∧
    (∀ name : GoStr,
      (name = [] ∨ ('/' ∈ name ∨ '\\' ∈ name ∨ ':' ∈ name ∨ '@' ∈ name) ∨
        leadingDotDash name = true ∨ name.length > 50) →
      isOkE (ValidateCrewName name) = false) := by
  constructor
  · intro c cs hall hdot hdash hlen
    have hspec : ((c :: cs).any
        (fun c => c = '/' ∨ c = '\\' ∨ c = ':' ∨ c = '@')) = false := by
      rw [List.any_eq_false]
      intro x hx
      have hw := hall x hx
      rcases Decidable.em (x = '/' ∨ x = '\\' ∨ x = ':' ∨ x = '@') with h | h
      · rcases h with h | h | h | h <;> subst h <;> revert hw <;> decide
      · simpa using h
    have hld : leadingDotDash (c :: cs) = false := by
      simp [leadingDotDash, hdot, hdash]
    rw [ValidateCrewName, if_neg (List.cons_ne_nil c cs),
      if_neg (by rw [hspec]; exact Bool.false_ne_true),
      if_neg (by rw [hld]; exact Bool.false_ne_true), if_neg (by omega)]
  · intro name h
    rw [ValidateCrewName]
    split
    · simp [isOkE]
    · split
      · simp [isOkE]
      · split
        · simp [isOkE]
        · split
          · simp [isOkE]
          · rename_i h1 h2 h3 h4
            exfalso
            rcases h with h | h | h | h
            · exact h1 h
            · apply h2
              rw [List.any_eq_true]
              rcases h with h | h | h | h
              · exact ⟨'/', h, by decide⟩
              · exact ⟨'\\', h, by decide⟩
              · exact ⟨':', h, by decide⟩
              · exact ⟨'@', h, by decide⟩
            · simp [h] at h3
            · exact h4 h

/-- Witness for C10 at concrete names: `troy-dev_2` accepted; `a@b`, the
empty name, `.hid` and a 51-character name rejected. -/
theorem validateCrewName_spec_witness :
    ValidateCrewName ("troy-dev_2".toList) = .ok () ∧
    isOkE (ValidateCrewName ("a@b".toList)) = false ∧
    isOkE (ValidateCrewName []) = false ∧
    isOkE (ValidateCrewName (".hid".toList)) = false ∧
    isOkE (ValidateCrewName (List.replicate 51 'a')) = false :=
  ⟨validateCrewName_spec.1 't' ("roy-dev_2".toList)
      (by decide) (by decide) (by decide) (by decide),
   validateCrewName_spec.2 _ (Or.inr (Or.inl (Or.inr (Or.inr (Or.inr (by decide)))))),
   validateCrewName_spec.2 _ (Or.inl rfl),
   validateCrewName_spec.2 _ (Or.inr (Or.inr (Or.inl (by decide)))),
   validateCrewName_spec.2 _ (Or.inr (Or.inr (Or.inr (by decide))))⟩

/-! ### Helper lemmas: splitting and joining paths -/

theorem splitOnChar_ne_nil (sep : Char) (l : GoStr) : splitOnChar sep l ≠ [] := by
  induction l with
  | nil => simp [splitOnChar]
  | cons c rest ih =>
    rw [splitOnChar]
    split
    · simp
    · split
      · simp
      · simp

theorem splitOnChar_append (sep : Char) (xs ys : GoStr) :
    splitOnChar sep (xs ++ sep :: ys) = splitOnChar sep xs ++ splitOnChar sep ys := by
  induction xs with
  | nil => simp [splitOnChar]
  | cons c rest ih =>
    rw [List.cons_append, splitOnChar]
    by_cases hc : c = sep
    · rw [if_pos hc, ih, splitOnChar, if_pos hc, List.cons_append]
    · rw [if_neg hc, ih, splitOnChar, if_neg hc]
      have hne := splitOnChar_ne_nil sep rest
      rcases h : splitOnChar sep rest with _ | ⟨h0, t0⟩
      · exact absurd h hne
      · simp

theorem splitOnChar_of_not_mem (sep : Char) (xs : GoStr) (h : sep ∉ xs) :
    splitOnChar sep xs = [xs] := by
  induction xs with
  | nil => rfl
  | cons c rest ih =>
    rw [splitOnChar, if_neg (fun hc => h (by rw [← hc]; exact List.mem_cons_self c rest)),
      ih (fun hm => h (List.mem_cons_of_mem c hm))]

theorem splitOnChar_not_mem_of_mem (sep : Char) (l s : GoStr)
    (hs : s ∈ splitOnChar sep l) : sep ∉ s := by
  induction l generalizing s with
  | nil =>
    simp [splitOnChar] at hs
    simp [hs]
  | cons c rest ih =>
    rw [splitOnChar] at hs
    by_cases hc : c = sep
    · rw [if_pos hc] at hs
      rcases List.mem_cons.mp hs with h | h
      · simp [h]
      · exact ih s h
    · rw [if_neg hc] at hs
      rcases hrest : splitOnChar sep rest with _ | ⟨h0, t0⟩
      · exact absurd hrest (splitOnChar_ne_nil sep rest)
      · rw [hrest] at hs
        rcases List.mem_cons.mp hs with h | h
        · subst h
          intro hmem
          rcases List.mem_cons.mp hmem with h | h
          · exact hc h.symm
          · exact ih (c :: h0).tail (by rw [hrest]; exact List.mem_cons_self h0 t0) h
        · exact ih s (by rw [hrest]; exact List.mem_cons_of_mem h0 h)

theorem dropCommon_self_append (l m : List GoStr) : dropCommon l (l ++ m) = ([], m) := by
  induction l with
  | nil =>
    cases m <;> rfl
  | cons a as ih => simpa [dropCommon] using ih

theorem joinChar_splitOnChar_cons (sep : Char) (s : GoStr) (rest : List GoStr) :
    joinChar sep (s :: rest) = s ++ (match rest with | [] => [] | _ => sep :: joinChar sep rest) := by
  cases rest with
  | nil => simp [joinChar]
  | cons r rs => simp [joinChar]

theorem joinChar_splitOnChar (sep : Char) (segs : List GoStr) (hne : segs ≠ [])
    (hfree : ∀ s ∈ segs, sep ∉ s) :
    splitOnChar sep (joinChar sep segs) = segs := by
  induction segs with
  | nil => exact absurd rfl hne
  | cons s rest ih =>
    cases rest with
    | nil =>
      rw [joinChar, splitOnChar_of_not_mem sep s (hfree s (List.mem_cons_self s []))]
    | cons s2 rest2 =>
      rw [joinChar, splitOnChar_append,
        splitOnChar_of_not_mem sep s (hfree s (List.mem_cons_self s _)),
        ih (List.cons_ne_nil s2 rest2) (fun x hx => hfree x (List.mem_cons_of_mem s hx))]
      · rfl
      · exact List.cons_ne_nil s2 rest2

theorem fpBase_append (X base : GoStr) (h : '/' ∉ base) :
    fpBase (X ++ '/' :: base) = base := by
  simp [fpBase, splitOnChar_append, splitOnChar_of_not_mem '/' base h]

theorem fpRel_under_base (B R : GoStr) :
    fpRel B (B ++ '/' :: R) = joinChar '/' (splitOnChar '/' R) := by
  rw [fpRel]
  simp only [splitOnChar_append, dropCommon_self_append, List.length_nil,
    List.replicate_zero, List.nil_append]
  have hne := splitOnChar_ne_nil '/' R
  rcases h : splitOnChar '/' R with _ | ⟨h0, t0⟩
  · exact absurd h hne
  · rfl

theorem splitOnChar_fpRel_under_base (B repo worker : GoStr)
    (hrepo : '/' ∉ repo) :
    splitOnChar '/' (fpRel B (B ++ '/' :: (repo ++ '/' :: worker))) =
      repo :: splitOnChar '/' worker := by
  rw [fpRel_under_base, splitOnChar_append, splitOnChar_of_not_mem '/' repo hrepo]
  have hfree : ∀ s ∈ ([repo] ++ splitOnChar '/' worker), '/' ∉ s := by
    intro s hs
    rcases List.mem_append.mp hs with h | h
    · rw [List.mem_singleton.mp h]
      exact hrepo
    · exact splitOnChar_not_mem_of_mem '/' worker s h
  rw [joinChar_splitOnChar '/' _ (by simp) hfree]
  rfl

/-- C1: repository-context resolution follows the decision order, first
match winning: a non-empty explicit argument is returned verbatim (no
existence check); else, under the repositories root the version-control
root's directory name is returned; else, under the workers root the first
path segment of the path relative to the workers root is returned (read
from the path structure, not the worktree's git-derived name); else a
session name containing the separator yields the segment before it, and a
bare session name is returned only when it names a real repository;
otherwise an error. `InferRig` is a pure function of the read-only
environment — it mutates nothing. -/
theorem inferRig_decision_order (cfg : Config) (env : InferEnv) :
    (∀ explicitRig, explicitRig ≠ [] →
      InferRig cfg env explicitRig = .ok explicitRig) ∧
    (∀ pwd dirPart base, env.pwd = some pwd →
      (cfg.rigsBase ++ ['/']).isPrefixOf pwd = true →
      env.repoRoot pwd = some (dirPart ++ '/' :: base) → '/' ∉ base →
      InferRig cfg env [] = .ok base) ∧
    (∀ pwd repo worker, env.pwd = some pwd →
      (cfg.rigsBase ++ ['/']).isPrefixOf pwd = false →
      (cfg.crewBase ++ ['/']).isPrefixOf pwd = true →
      env.repoRoot pwd = some (cfg.crewBase ++ '/' :: (repo ++ '/' :: worker)) →
      '/' ∉ repo →
      InferRig cfg env [] = .ok repo) ∧
    (∀ s1 s2, inferFromPwd cfg env = none →
      env.currentSession = s1 ++ '@' :: s2 → '@' ∉ s1 →
      InferRig cfg env [] = .ok s1) ∧
    (inferFromPwd cfg env = none →
      env.currentSession ≠ [] → '@' ∉ env.currentSession →
      isGitRepoDirs env.dirs (cfg.getRepoPath env.currentSession) = true →
      InferRig cfg env [] = .ok env.currentSession) ∧
    (inferFromPwd cfg env = none →
      '@' ∉ env.currentSession →
      isGitRepoDirs env.dirs (cfg.getRepoPath env.currentSession) = false →
      isOkE (InferRig cfg env []) = false) := by
  refine ⟨?_, ?_, ?_, ?_, ?_, ?_⟩
  · intro e he
    rw [InferRig, if_pos he]
  · intro pwd dirPart base hpwd hpre hroot hbase
    rw [InferRig, if_neg (by simp), inferFromPwd, hpwd]
    simp only [hpre, if_pos, hroot, Option.map_some']
    rw [fpBase_append dirPart base hbase]
  · intro pwd repo worker hpwd hrigs hcrew hroot hfree
    rw [InferRig, if_neg (by simp), inferFromPwd, hpwd]
    simp only [hrigs, Bool.false_eq_true, if_false, if_neg]
    simp only [hcrew, if_pos, hroot]
    rw [splitOnChar_fpRel_under_base cfg.crewBase repo worker hfree]
  · intro s1 s2 hnone hsess hfree
    rw [InferRig, if_neg (by simp), hnone, hsess]
    rw [if_pos (by simp), if_pos (by simp), splitOnChar_append,
      splitOnChar_of_not_mem '@' s1 hfree]
    rfl
  · intro hnone hne hat hrepo
    rw [InferRig, if_neg (by simp), hnone]
    rw [if_pos hne, if_neg (by simpa using hat), if_pos hrepo]
  · intro hnone hat hrepo
    rw [InferRig, if_neg (by simp), hnone]
    by_cases hne : env.currentSession = []
    · rw [if_neg (by simp [hne])]
      rfl
    · rw [if_pos hne, if_neg (by simpa using hat), if_neg (by simp [hrepo])]
      rfl

/-- Witness for C1 at the divergence scenario: from
`/c/repoA/workerB/sub` (two levels under the workers root) the resolver
returns the path segment `repoA`, although the worktree's own git-derived
directory name is `workerB`; an explicit argument is returned verbatim. -/
theorem inferRig_decision_order_witness :
    InferRig cfg0 envCrewSplit [] = .ok ("repoA".toList) ∧
    fpBase ("/c/repoA/workerB".toList) = "workerB".toList ∧
    InferRig cfg0 envCrewSplit ("other".toList) = .ok ("other".toList) :=
  ⟨(inferRig_decision_order cfg0 envCrewSplit).2.2.1
      ("/c/repoA/workerB/sub".toList) ("repoA".toList) ("workerB".toList)
      rfl (by decide) (by decide) (by decide) (by decide),
   by decide,
   (inferRig_decision_order cfg0 envCrewSplit).1 ("other".toList) (by decide)⟩

theorem normalizeSessionName_idem (name : GoStr) :
    NormalizeSessionName (NormalizeSessionName name) = NormalizeSessionName name := by
  rw [NormalizeSessionName, NormalizeSessionName, List.map_map]
  apply List.map_congr_left
  intro c _
  by_cases hc : c = '.' <;> simp [Function.comp, hc]

/-- C8 (code bug): the tmux-level operations are normalization-invariant
— `SessionExists`, `KillSession` and `AttachSession` behave identically on
a name and on its normalized form — but `crew.Remove`'s inside-session
check compares the raw session name with the (normalized) name tmux
reports: removing worker `a.b` of rig `demo` while the caller sits inside
that very session (tmux reports `demo@a_b`) emits no inside-session
warning, although the live session being killed is exactly the one the
caller is in. -/
theorem remove_inside_warning_unnormalized :
    (∀ (sessions : List GoStr) (name : GoStr),
      SessionExists sessions (NormalizeSessionName name) = SessionExists sessions name ∧
      killSessionState sessions (NormalizeSessionName name) = killSessionState sessions name ∧
      attachTarget (NormalizeSessionName name) = attachTarget name) ∧
    (SessionExists worldDotted.sessions
        (cfg0.getCrewSessionName ("demo".toList) ("a.b".toList)) = true ∧
      NormalizeSessionName (cfg0.getCrewSessionName ("demo".toList) ("a.b".toList)) =
        "demo@a_b".toList ∧
      (Crew.Remove cfg0 oracleOk ("demo@a_b".toList) worldDotted
          ("a.b".toList) ("demo".toList)).res = .ok () ∧
      Call.killSession (cfg0.getCrewSessionName ("demo".toList) ("a.b".toList)) ∈
        (Crew.Remove cfg0 oracleOk ("demo@a_b".toList) worldDotted
          ("a.b".toList) ("demo".toList)).trace ∧
      Call.warnInsideSession (cfg0.getCrewSessionName ("demo".toList) ("a.b".toList)) ∉
        (Crew.Remove cfg0 oracleOk ("demo@a_b".toList) worldDotted
          ("a.b".toList) ("demo".toList)).trace) := by
  constructor
  · intro sessions name
    refine ⟨?_, ?_, ?_⟩
    · rw [SessionExists, SessionExists, normalizeSessionName_idem]
    · rw [killSessionState, killSessionState, normalizeSessionName_idem]
    · rw [attachTarget, attachTarget, normalizeSessionName_idem]
  · refine ⟨by decide, by decide, by decide, by decide, by decide⟩

/-- C5 (code bug): `GenerateHook` does fail with FormulaNotFound when the
named formula document is missing, writing nothing; but an existing hook
document is NOT left unchanged — re-running the operation with a different
formula silently overwrites `hook.md` (the repository's own design
document records the opposite decision: "hook is static once created").
On `fsHook0`, whose `hook.md` was generated from `build`, re-running with
formula `alt` rewrites the hook to different content. -/
theorem generateHook_overwrites_existing_hook :
    GenerateHook fsHook0 ("/r".toList) ("w".toList) ("missing".toList) =
      .error ("formula not found: ".toList ++
        GetFormulaPath ("/r".toList) ("missing".toList)) ∧
    ∃ fs1, GenerateHook fsHook0 ("/r".toList) ("w".toList) ("alt".toList) = .ok fs1 ∧
      findFile fsHook0.files
          (GetWorkPath ("/r".toList) ("w".toList) ++ "/hook.md".toList) =
        some (hookContent ("w".toList) ("build".toList)) ∧
      findFile fs1.files
          (GetWorkPath ("/r".toList) ("w".toList) ++ "/hook.md".toList) =
        some (hookContent ("w".toList) ("alt".toList)) ∧
      hookContent ("w".toList) ("alt".toList) ≠
        hookContent ("w".toList) ("build".toList) := by
  refine ⟨by decide, _, rfl, by decide, by decide, by decide⟩

/-! ### Helper lemmas: the filesystem model -/

theorem findFile_setFile_same (files : List (GoStr × GoStr)) (p c : GoStr) :
    findFile (setFile files p c) p = some c := by
  induction files with
  | nil => simp [setFile, findFile]
  | cons e rest ih =>
    obtain ⟨a, b⟩ := e
    by_cases hap : a = p
    · simp [setFile, hap, findFile]
    · simp [setFile, hap, findFile, ih]

theorem findFile_setFile_ne (files : List (GoStr × GoStr)) (p c q : GoStr)
    (h : q ≠ p) : findFile (setFile files p c) q = findFile files q := by
  have hp : ¬(p = q) := fun he => h he.symm
  induction files with
  | nil => simp [setFile, findFile, hp]
  | cons e rest ih =>
    obtain ⟨a, b⟩ := e
    by_cases hap : a = p
    · subst hap
      simp [setFile, findFile, hp]
    · simp [setFile, hap, findFile, ih]

theorem statFile_eq_isSome (fs : FS) (q : GoStr) :
    statFile fs q = (findFile fs.files q).isSome := by
  rw [statFile]
  induction fs.files with
  | nil => rfl
  | cons e rest ih =>
    obtain ⟨a, b⟩ := e
    by_cases hq : a = q
    · simp [findFile, hq]
    · simp [findFile, hq, ih]

theorem statFile_writeFile_ne (fs : FS) (p c q : GoStr) (h : q ≠ p) :
    statFile (writeFile fs p c) q = statFile fs q := by
  rw [statFile_eq_isSome, statFile_eq_isSome]
  rw [show (writeFile fs p c).files = setFile fs.files p c from rfl]
  rw [findFile_setFile_ne fs.files p c q h]

theorem findFile_writeFile_files (fs : FS) (p c : GoStr) :
    (writeFile fs p c).files = setFile fs.files p c := rfl

theorem statFile_mkdirAllFS (fs : FS) (d q : GoStr) :
    statFile (mkdirAllFS fs d) q = statFile fs q := rfl

theorem findFile_mkdirAllFS (fs : FS) (d : GoStr) :
    (mkdirAllFS fs d).files = fs.files := rfl

theorem workFile_ne_of_ne (repoPath workName fn1 fn2 : GoStr) (h : fn1 ≠ fn2) :
    GetWorkPath repoPath workName ++ '/' :: fn1 ≠
      GetWorkPath repoPath workName ++ '/' :: fn2 := by
  intro he
  have := List.append_cancel_left he
  exact h (List.cons_eq_cons.mp this).2

theorem workFile_ne_formulaPath (repoPath workName fn : GoStr)
    (hw : '/' ∉ workName) (hfn : '/' ∉ fn) (hne : fn ≠ ("build.md".toList)) :
    GetWorkPath repoPath workName ++ '/' :: fn ≠
      GetFormulaPath repoPath ("build".toList) := by
  intro he
  rw [GetWorkPath, GetFormulaPath] at he
  rw [show ("/work/formula/".toList : GoStr) = "/work/".toList ++ "formula/".toList from by decide] at he
  simp only [List.append_assoc] at he
  have he2 := List.append_cancel_left (List.append_cancel_left he)
  rw [show ("formula/".toList : GoStr) ++ ("build".toList ++ ".md".toList) =
    "formula".toList ++ '/' :: ("build.md".toList) from by decide] at he2
  have hspl := congrArg (splitOnChar '/') he2
  rw [splitOnChar_append, splitOnChar_append,
    splitOnChar_of_not_mem '/' workName hw, splitOnChar_of_not_mem '/' fn hfn,
    splitOnChar_of_not_mem '/' ("formula".toList) (by decide),
    splitOnChar_of_not_mem '/' ("build.md".toList) (by decide)] at hspl
  simp at hspl
  exact hne hspl.2

theorem stepWrite_findFile (fs : FS) (p c q : GoStr) :
    findFile (if statFile fs p then fs else writeFile fs p c).files q =
      if q = p then (if statFile fs p then findFile fs.files q else some c)
      else findFile fs.files q := by
  by_cases hs : statFile fs p = true
  · by_cases hq : q = p <;> simp [hs, hq]
  · by_cases hq : q = p
    · subst hq
      simp [hs, writeFile, findFile_setFile_same]
    · simp [hs, hq, writeFile, findFile_setFile_ne fs.files p c q hq]

theorem stepWrite_statFile (fs : FS) (p c q : GoStr) (h : q ≠ p) :
    statFile (if statFile fs p then fs else writeFile fs p c) q = statFile fs q := by
  by_cases hs : statFile fs p = true
  · simp [hs]
  · simp [hs, statFile_writeFile_ne fs p c q h]

theorem ensureDefault_findFile (fs : FS) (repoPath q : GoStr) :
    findFile (EnsureDefaultFormula fs repoPath).files q =
      if q = GetFormulaPath repoPath ("build".toList) ∧ statFile fs q = false
      then some getDefaultFormulaContent
      else findFile fs.files q := by
  rw [EnsureDefaultFormula]
  by_cases hs : statFile fs (GetFormulaPath repoPath ("build".toList)) = true
  · rw [if_pos hs]
    by_cases hq : q = GetFormulaPath repoPath ("build".toList)
    · subst hq
      rw [if_neg (fun hc => absurd (hs.symm.trans hc.2) (by decide))]
    · rw [if_neg (fun hc => hq hc.1)]
  · rw [if_neg hs]
    show findFile (setFile fs.files (GetFormulaPath repoPath ("build".toList))
      getDefaultFormulaContent) q = _
    by_cases hq : q = GetFormulaPath repoPath ("build".toList)
    · subst hq
      rw [findFile_setFile_same, if_pos ⟨rfl, (by simpa using hs)⟩]
    · rw [findFile_setFile_ne _ _ _ _ hq, if_neg (fun hc => hq hc.1)]

theorem stepWrite_dirs (fs : FS) (p c : GoStr) :
    (if statFile fs p then fs else writeFile fs p c).dirs = fs.dirs := by
  split <;> rfl

theorem ensureDefault_dirs (fs : FS) (repoPath : GoStr)
    (h : repoPath ++ "/work/formula".toList ∈ fs.dirs) :
    (EnsureDefaultFormula fs repoPath).dirs = fs.dirs := by
  rw [EnsureDefaultFormula]
  split
  · rfl
  · show (mkdirAllFS fs (repoPath ++ "/work/formula".toList)).dirs = fs.dirs
    rw [mkdirAllFS, if_pos h]

theorem mkdirAllFS_dirs_of_mem (fs : FS) (d : GoStr) (h : d ∈ fs.dirs) :
    (mkdirAllFS fs d).dirs = fs.dirs := by
  rw [mkdirAllFS, if_pos h]

theorem mem_mkdirAllFS (fs : FS) (d x : GoStr) (h : x ∈ fs.dirs) :
    x ∈ (mkdirAllFS fs d).dirs := by
  rw [mkdirAllFS]
  dsimp only
  split
  · exact h
  · exact List.mem_cons_of_mem _ h

/-- C9 (amended): `work.Create` creates the `work/<name>/` and
`work/formula/` directories only when absent; writes each of the four
template documents only when that file is not already present (an existing
file's content is never overwritten); installs the default formula
document `build.md` only when `build.md` itself is absent — the presence
of other formula documents in the directory does not prevent
installation, and an installed `build.md` is never auto-overwritten; and
touches no other file. -/
theorem create_scaffold_no_overwrite (fs : FS) (repoPath workName : GoStr) (hw : '/' ∉ workName) :
    (GetWorkPath repoPath workName ∈ fs.dirs →
      repoPath ++ "/work/formula".toList ∈ fs.dirs →
      (Work.Create fs repoPath workName).dirs = fs.dirs) ∧
    (findFile (Work.Create fs repoPath workName).files
        (GetWorkPath repoPath workName ++ '/' :: ("spec.md".toList)) =
      if statFile fs (GetWorkPath repoPath workName ++ '/' :: ("spec.md".toList))
      then findFile fs.files (GetWorkPath repoPath workName ++ '/' :: ("spec.md".toList))
      else some (getSpecTemplate workName)) ∧
    (findFile (Work.Create fs repoPath workName).files
        (GetWorkPath repoPath workName ++ '/' :: ("design.md".toList)) =
      if statFile fs (GetWorkPath repoPath workName ++ '/' :: ("design.md".toList))
      then findFile fs.files (GetWorkPath repoPath workName ++ '/' :: ("design.md".toList))
      else some (getDesignTemplate workName)) ∧
    (findFile (Work.Create fs repoPath workName).files
        (GetWorkPath repoPath workName ++ '/' :: ("breakdown.md".toList)) =
      if statFile fs (GetWorkPath repoPath workName ++ '/' :: ("breakdown.md".toList))
      then findFile fs.files (GetWorkPath repoPath workName ++ '/' :: ("breakdown.md".toList))
      else some (getBreakdownTemplate workName)) ∧
    (findFile (Work.Create fs repoPath workName).files
        (GetWorkPath repoPath workName ++ '/' :: ("progress.md".toList)) =
      if statFile fs (GetWorkPath repoPath workName ++ '/' :: ("progress.md".toList))
      then findFile fs.files (GetWorkPath repoPath workName ++ '/' :: ("progress.md".toList))
      else some (getProgressTemplate workName)) ∧
    (findFile (Work.Create fs repoPath workName).files
        (GetFormulaPath repoPath ("build".toList)) =
      if statFile fs (GetFormulaPath repoPath ("build".toList))
      then findFile fs.files (GetFormulaPath repoPath ("build".toList))
      else some getDefaultFormulaContent) ∧
    (∀ q, (∀ fn ∈ [("spec.md".toList : GoStr), "design.md".toList,
        "breakdown.md".toList, "progress.md".toList],
        q ≠ GetWorkPath repoPath workName ++ '/' :: fn) →
      q ≠ GetFormulaPath repoPath ("build".toList) →
      findFile (Work.Create fs repoPath workName).files q = findFile fs.files q) := by
  have hn12 := workFile_ne_of_ne repoPath workName ("spec.md".toList) ("design.md".toList) (by decide)
  have hn13 := workFile_ne_of_ne repoPath workName ("spec.md".toList) ("breakdown.md".toList) (by decide)
  have hn14 := workFile_ne_of_ne repoPath workName ("spec.md".toList) ("progress.md".toList) (by decide)
  have hn23 := workFile_ne_of_ne repoPath workName ("design.md".toList) ("breakdown.md".toList) (by decide)
  have hn24 := workFile_ne_of_ne repoPath workName ("design.md".toList) ("progress.md".toList) (by decide)
  have hn34 := workFile_ne_of_ne repoPath workName ("breakdown.md".toList) ("progress.md".toList) (by decide)
  have hnf1 := workFile_ne_formulaPath repoPath workName ("spec.md".toList) hw (by decide) (by decide)
  have hnf2 := workFile_ne_formulaPath repoPath workName ("design.md".toList) hw (by decide) (by decide)
  have hnf3 := workFile_ne_formulaPath repoPath workName ("breakdown.md".toList) hw (by decide) (by decide)
  have hnf4 := workFile_ne_formulaPath repoPath workName ("progress.md".toList) hw (by decide) (by decide)
  refine ⟨?_, ?_, ?_, ?_, ?_, ?_, ?_⟩
  · intro hwp hfd
    rw [Work.Create]
    simp only [List.foldl]
    rw [ensureDefault_dirs]
    · rw [stepWrite_dirs, stepWrite_dirs, stepWrite_dirs, stepWrite_dirs,
        mkdirAllFS_dirs_of_mem _ _ (mem_mkdirAllFS fs _ _ hfd),
        mkdirAllFS_dirs_of_mem _ _ hwp]
    · rw [stepWrite_dirs, stepWrite_dirs, stepWrite_dirs, stepWrite_dirs,
        mkdirAllFS_dirs_of_mem _ _ (mem_mkdirAllFS fs _ _ hfd),
        mkdirAllFS_dirs_of_mem _ _ hwp]
      exact hfd
  · rw [Work.Create]
    simp only [List.foldl]
    rw [ensureDefault_findFile, if_neg (fun hc => hnf1 hc.1)]
    rw [stepWrite_findFile, if_neg hn14]
    rw [stepWrite_findFile, if_neg hn13]
    rw [stepWrite_findFile, if_neg hn12]
    rw [stepWrite_findFile, if_pos rfl]
    rfl
  · rw [Work.Create]
    simp only [List.foldl]
    rw [ensureDefault_findFile, if_neg (fun hc => hnf2 hc.1)]
    rw [stepWrite_findFile, if_neg hn24]
    rw [stepWrite_findFile, if_neg hn23]
    rw [stepWrite_findFile, if_pos rfl]
    rw [stepWrite_statFile _ _ _ _ (Ne.symm hn12)]
    rw [stepWrite_findFile, if_neg (Ne.symm hn12)]
    rfl
  · rw [Work.Create]
    simp only [List.foldl]
    rw [ensureDefault_findFile, if_neg (fun hc => hnf3 hc.1)]
    rw [stepWrite_findFile, if_neg hn34]
    rw [stepWrite_findFile, if_pos rfl]
    rw [stepWrite_statFile _ _ _ _ (Ne.symm hn23),
      stepWrite_statFile _ _ _ _ (Ne.symm hn13)]
    rw [stepWrite_findFile, if_neg (Ne.symm hn23)]
    rw [stepWrite_findFile, if_neg (Ne.symm hn13)]
    rfl
  · rw [Work.Create]
    simp only [List.foldl]
    rw [ensureDefault_findFile, if_neg (fun hc => hnf4 hc.1)]
    rw [stepWrite_findFile, if_pos rfl]
    rw [stepWrite_statFile _ _ _ _ (Ne.symm hn34),
      stepWrite_statFile _ _ _ _ (Ne.symm hn24),
      stepWrite_statFile _ _ _ _ (Ne.symm hn14)]
    rw [stepWrite_findFile, if_neg (Ne.symm hn34)]
    rw [stepWrite_findFile, if_neg (Ne.symm hn24)]
    rw [stepWrite_findFile, if_neg (Ne.symm hn14)]
    rfl
  · rw [Work.Create]
    simp only [List.foldl]
    rw [ensureDefault_findFile]
    rw [stepWrite_statFile _ _ _ _ (Ne.symm hnf4),
      stepWrite_statFile _ _ _ _ (Ne.symm hnf3),
      stepWrite_statFile _ _ _ _ (Ne.symm hnf2),
      stepWrite_statFile _ _ _ _ (Ne.symm hnf1)]
    rw [stepWrite_findFile, if_neg (Ne.symm hnf4)]
    rw [stepWrite_findFile, if_neg (Ne.symm hnf3)]
    rw [stepWrite_findFile, if_neg (Ne.symm hnf2)]
    rw [stepWrite_findFile, if_neg (Ne.symm hnf1)]
    by_cases hs : statFile fs (GetFormulaPath repoPath ("build".toList)) = true
    · rw [if_neg (fun hc => absurd (hs.symm.trans hc.2) (by decide)), if_pos hs]
      rfl
    · rw [if_pos ⟨rfl, by simpa using hs⟩, if_neg hs]
  · intro q hq hqf
    have hq1 := hq ("spec.md".toList) (by simp)
    have hq2 := hq ("design.md".toList) (by simp)
    have hq3 := hq ("breakdown.md".toList) (by simp)
    have hq4 := hq ("progress.md".toList) (by simp)
    rw [Work.Create]
    simp only [List.foldl]
    rw [ensureDefault_findFile, if_neg (fun hc => hqf hc.1)]
    rw [stepWrite_findFile, if_neg hq4]
    rw [stepWrite_findFile, if_neg hq3]
    rw [stepWrite_findFile, if_neg hq2]
    rw [stepWrite_findFile, if_neg hq1]
    rfl

/-- Witness for C9: on `fsCustom0` (empty work directory, a `custom.md`
formula present), `Create` writes the default formula and the templates
and leaves `custom.md` untouched. -/
theorem create_scaffold_no_overwrite_witness :
    findFile (Work.Create fsCustom0 ("/r".toList) ("w".toList)).files
      (GetFormulaPath ("/r".toList) ("build".toList)) = some getDefaultFormulaContent ∧
    findFile (Work.Create fsCustom0 ("/r".toList) ("w".toList)).files
      ("/r/work/formula/custom.md".toList) = some ("# C".toList) := by
  have h := create_scaffold_no_overwrite fsCustom0 ("/r".toList) ("w".toList) (by decide)
  constructor
  · rw [h.2.2.2.2.2.1, if_neg (by decide)]
  · rw [h.2.2.2.2.2.2 ("/r/work/formula/custom.md".toList) (by decide) (by decide)]
    decide

/-- C9 is refuted as stated: the claim says the default formula is
installed only if the formula directory has no formula document in it,
but on `fsCustom0` — whose formula directory holds the formula document
`custom.md` while `build.md` is absent — `Create` installs the default
formula anyway: the code checks only for `build.md` itself. -/
theorem create_default_formula_counterexample :
    isChildOf ("/r/work/formula".toList) ("/r/work/formula/custom.md".toList) = true ∧
    findFile fsCustom0.files ("/r/work/formula/custom.md".toList) = some ("# C".toList) ∧
    statFile fsCustom0 ("/r/work/formula/build.md".toList) = false ∧
    statFile (Work.Create fsCustom0 ("/r".toList) ("w".toList))
      ("/r/work/formula/build.md".toList) = true := by
  refine ⟨by decide, by decide, by decide, by decide⟩

theorem dropWhile_append_of_all (p : Char → Bool) (sp l : GoStr)
    (h : ∀ x ∈ sp, p x = true) :
    List.dropWhile p (sp ++ l) = List.dropWhile p l := by
  induction sp with
  | nil => rfl
  | cons c rest ih =>
    rw [List.cons_append, List.dropWhile_cons,
      if_pos (h c (List.mem_cons_self c rest))]
    exact ih (fun x hx => h x (List.mem_cons_of_mem c hx))

theorem matchTask_shape (sp rest : GoStr) (c : Char)
    (hsp : ∀ x ∈ sp, isReSpace x = true) (hrest : rest ≠ []) :
    matchTask ('-' :: (sp ++ '[' :: c :: ']' :: rest)) =
      if c = ' ' ∨ c = 'x' ∨ c = 'X' then some (c, trimSpace rest) else none := by
  simp only [matchTask]
  rw [dropReSpace, dropWhile_append_of_all isReSpace sp _ hsp]
  rw [List.dropWhile_cons, if_neg (by decide)]
  show (if c = ' ' ∨ c = 'x' ∨ c = 'X' then
      if rest = [] then none else some (c, trimSpace rest) else none) = _
  by_cases hc : c = ' ' ∨ c = 'x' ∨ c = 'X'
  · rw [if_pos hc, if_pos hc, if_neg hrest]
  · rw [if_neg hc, if_neg hc]

theorem matchStatus_dash (l : GoStr) : matchStatus ('-' :: l) = none := rfl

theorem matchAssigned_dash (l : GoStr) : matchAssigned ('-' :: l) = none := rfl

theorem matchSection_dash (k l : GoStr) : matchSection k ('-' :: l) = false := rfl

theorem parseNotesStep_skip (st : PState) (line : GoStr) (h : st.inNotes = false) :
    parseNotesStep st line = st := by
  rw [parseNotesStep, if_neg (by rw [h]; exact Bool.false_ne_true)]

theorem parseNotesStep_tasks (st : PState) (line : GoStr) :
    (parseNotesStep st line).tasks = st.tasks := by
  rw [parseNotesStep]
  split
  · split <;> rfl
  · rfl

theorem parseTaskStep_record (st : PState) (line : GoStr) (c : Char) (d : GoStr)
    (hck : st.inChecklist = true) (ht : matchTask line = some (c, d)) :
    parseTaskStep st line =
      { st with tasks := st.tasks ++ [⟨c = 'x' ∨ c = 'X', d⟩] } := by
  rw [parseTaskStep, if_pos hck, ht]

theorem parseTaskStep_skip (st : PState) (line : GoStr)
    (ht : matchTask line = none) :
    parseTaskStep st line = st := by
  rw [parseTaskStep]
  split
  · rw [ht]
  · rfl

theorem parseLine_task_line (st : PState) (sp rest : GoStr) (c : Char)
    (hck : st.inChecklist = true) (hnt : st.inNotes = false)
    (hsp : ∀ x ∈ sp, isReSpace x = true) (hrest : rest ≠ [])
    (hc : c = ' ' ∨ c = 'x' ∨ c = 'X') :
    parseLine st ('-' :: (sp ++ '[' :: c :: ']' :: rest)) =
      { st with tasks := st.tasks ++ [⟨c = 'x' ∨ c = 'X', trimSpace rest⟩] } := by
  rw [parseLine, matchStatus_dash, matchAssigned_dash]
  rw [if_neg (by rw [matchSection_dash]; exact Bool.false_ne_true),
    if_neg (by rw [matchSection_dash]; exact Bool.false_ne_true)]
  rw [parseTaskStep_record st _ c (trimSpace rest) hck
    (by rw [matchTask_shape sp rest c hsp hrest, if_pos hc])]
  exact parseNotesStep_skip _ _ hnt

theorem parseLine_task_line_other (st : PState) (sp rest : GoStr) (c : Char)
    (_hck : st.inChecklist = true) (hnt : st.inNotes = false)
    (hsp : ∀ x ∈ sp, isReSpace x = true) (hrest : rest ≠ [])
    (hc : ¬(c = ' ' ∨ c = 'x' ∨ c = 'X')) :
    parseLine st ('-' :: (sp ++ '[' :: c :: ']' :: rest)) = st := by
  rw [parseLine, matchStatus_dash, matchAssigned_dash]
  rw [if_neg (by rw [matchSection_dash]; exact Bool.false_ne_true),
    if_neg (by rw [matchSection_dash]; exact Bool.false_ne_true)]
  rw [parseTaskStep_skip st _ (by rw [matchTask_shape sp rest c hsp hrest, if_neg hc])]
  exact parseNotesStep_skip _ _ hnt

theorem parseLine_tasks_tolerant (st : PState) (line : GoStr) :
    (parseLine st line).tasks = st.tasks ∨
    ∃ c d, matchTask line = some (c, d) ∧ st.inChecklist = true ∧
      (parseLine st line).tasks = st.tasks ++ [⟨c = 'x' ∨ c = 'X', d⟩] := by
  rw [parseLine]
  rcases hs : matchStatus line with _ | v
  · rcases ha : matchAssigned line with _ | v
    · by_cases hcl : matchSection ("checklist".toList) line = true
      · rw [if_pos hcl]
        left
        rfl
      · rw [if_neg hcl]
        by_cases hno : matchSection ("notes".toList) line = true
        · rw [if_pos hno]
          left
          rfl
        · rw [if_neg hno]
          by_cases hck : st.inChecklist = true
          · rcases ht : matchTask line with _ | ⟨c, d⟩
            · left
              rw [parseNotesStep_tasks, parseTaskStep_skip st line ht]
            · right
              exact ⟨c, d, rfl, hck, by
                rw [parseNotesStep_tasks, parseTaskStep_record st line c d hck ht]⟩
          · left
            rw [parseNotesStep_tasks, parseTaskStep]
            rw [if_neg hck]
    · left
      rfl
  · left
    rfl

/-- C6 (amended): within the checklist section, a line of the form dash,
whitespace, bracketed single character, nonempty remainder is recorded as
a task exactly when the bracket character is space, `x` or `X` — done
precisely for `x`/`X`, a space marking not-done, the description being the
trimmed remainder; a line whose bracket character is anything else is
skipped like any malformed line (the claim's "any other bracket character
marks the task not-done" does not hold — see the counterexample); and no
line ever removes or corrupts recorded tasks: each line either leaves the
task list unchanged or appends the one task its match dictates, and
parsing is total. -/
theorem parse_checklist_line_behavior :
    (∀ (st : PState) (sp rest : GoStr) (c : Char),
      st.inChecklist = true → st.inNotes = false →
      (∀ x ∈ sp, isReSpace x = true) → rest ≠ [] →
      ((c = ' ' ∨ c = 'x' ∨ c = 'X') →
        parseLine st ('-' :: (sp ++ '[' :: c :: ']' :: rest)) =
          { st with tasks := st.tasks ++ [⟨c = 'x' ∨ c = 'X', trimSpace rest⟩] }) ∧
      (¬(c = ' ' ∨ c = 'x' ∨ c = 'X') →
        parseLine st ('-' :: (sp ++ '[' :: c :: ']' :: rest)) = st)) ∧
    (∀ (st : PState) (line : GoStr),
      (parseLine st line).tasks = st.tasks ∨
      ∃ c d, matchTask line = some (c, d) ∧ st.inChecklist = true ∧
        (parseLine st line).tasks = st.tasks ++ [⟨c = 'x' ∨ c = 'X', d⟩]) :=
  ⟨fun st sp rest c hck hnt hsp hrest =>
    ⟨fun hc => parseLine_task_line st sp rest c hck hnt hsp hrest hc,
     fun hc => parseLine_task_line_other st sp rest c hck hnt hsp hrest hc⟩,
   parseLine_tasks_tolerant⟩

/-- Witness for C6 at concrete lines: in checklist state, `- [x] alpha`
records a done task `alpha`, and `- [?] alpha` records nothing. -/
theorem parse_checklist_line_behavior_witness :
    parseLine ⟨[], [], [], [], true, false⟩ ("- [x] alpha".toList) =
      ⟨[], [], [⟨true, "alpha".toList⟩], [], true, false⟩ ∧
    parseLine ⟨[], [], [], [], true, false⟩ ("- [?] alpha".toList) =
      ⟨[], [], [], [], true, false⟩ := by
  have h1 := (parse_checklist_line_behavior).1 ⟨[], [], [], [], true, false⟩
    [' '] (" alpha".toList) 'x' rfl rfl (by decide) (by decide)
  have h2 := (parse_checklist_line_behavior).1 ⟨[], [], [], [], true, false⟩
    [' '] (" alpha".toList) '?' rfl rfl (by decide) (by decide)
  constructor
  · rw [show ("- [x] alpha".toList : GoStr) =
      '-' :: ([' '] ++ '[' :: 'x' :: ']' :: (" alpha".toList)) from by decide]
    rw [h1.1 (by decide)]
    decide
  · rw [show ("- [?] alpha".toList : GoStr) =
      '-' :: ([' '] ++ '[' :: '?' :: ']' :: (" alpha".toList)) from by decide]
    rw [h2.2 (by decide)]

/-- C6 is refuted as stated: the claim says any bracket character other
than `x`/`X` (for instance `?`) marks the task not-done, so the document
below should parse to the single not-done task `alpha`; the regex
`[( xX)]` matches only space, `x` and `X`, and the line is skipped —
no task at all is recorded. -/
theorem parse_bracket_counterexample :
    (ParseProgress ["## Checklist".toList, "- [?] alpha".toList]).tasks = [] ∧
    (ParseProgress ["## Checklist".toList, "- [ ] alpha".toList]).tasks =
      [⟨false, "alpha".toList⟩] := by
  refine ⟨by decide, by decide⟩

theorem trimSpace_cons_space (l : GoStr) : trimSpace (' ' :: l) = trimSpace l := by
  rw [trimSpace, trimSpace, List.dropWhile_cons, if_pos (by decide)]

theorem parseLine_renderTask (st : PState) (t : Work.Task)
    (hck : st.inChecklist = true) (hnt : st.inNotes = false)
    (hdesc : trimSpace t.description = t.description) :
    parseLine st (renderTask t) = { st with tasks := st.tasks ++ [t] } := by
  obtain ⟨done, desc⟩ := t
  simp only [Work.Task.mk.injEq] at hdesc ⊢
  cases done with
  | true =>
    rw [show renderTask ⟨true, desc⟩ =
      '-' :: ([' '] ++ '[' :: 'x' :: ']' :: (' ' :: desc)) from rfl]
    rw [parseLine_task_line st [' '] (' ' :: desc) 'x' hck hnt (by decide)
      (List.cons_ne_nil ' ' desc) (by decide)]
    rw [trimSpace_cons_space, hdesc]
    simp
  | false =>
    rw [show renderTask ⟨false, desc⟩ =
      '-' :: ([' '] ++ '[' :: ' ' :: ']' :: (' ' :: desc)) from rfl]
    rw [parseLine_task_line st [' '] (' ' :: desc) ' ' hck hnt (by decide)
      (List.cons_ne_nil ' ' desc) (by decide)]
    rw [trimSpace_cons_space, hdesc]
    simp

theorem foldl_parseLine_renderTasks (ts : List Work.Task) (st : PState)
    (hck : st.inChecklist = true) (hnt : st.inNotes = false)
    (hdesc : ∀ t ∈ ts, trimSpace t.description = t.description) :
    List.foldl parseLine st (ts.map renderTask) =
      { st with tasks := st.tasks ++ ts } := by
  induction ts generalizing st with
  | nil => simp
  | cons t rest ih =>
    rw [List.map_cons, List.foldl_cons,
      parseLine_renderTask st t hck hnt (hdesc t (List.mem_cons_self t rest)),
      ih { st with tasks := st.tasks ++ [t] } hck hnt
        (fun u hu => hdesc u (List.mem_cons_of_mem t hu))]
    simp

theorem currentFrom_all_done (ts : List Work.Task)
    (h : ∀ t ∈ ts, t.done = true) : currentFrom ts = [] := by
  induction ts with
  | nil => rfl
  | cons t rest ih =>
    rw [currentFrom, if_pos (h t (List.mem_cons_self t rest))]
    exact ih (fun u hu => h u (List.mem_cons_of_mem t hu))

theorem currentFrom_first_undone (pre : List Work.Task) (t : Work.Task)
    (post : List Work.Task) (hpre : ∀ u ∈ pre, u.done = true)
    (ht : t.done = false) :
    currentFrom (pre ++ t :: post) = t.description := by
  induction pre with
  | nil =>
    rw [List.nil_append, currentFrom, if_neg (by rw [ht]; exact Bool.false_ne_true)]
  | cons u rest ih =>
    rw [List.cons_append, currentFrom, if_pos (hpre u (List.mem_cons_self u rest))]
    exact ih (fun v hv => hpre v (List.mem_cons_of_mem u hv))

theorem parseProgress_render (name : GoStr) (tasks : List Work.Task)
    (hdesc : ∀ t ∈ tasks, trimSpace t.description = t.description) :
    ParseProgress (renderProgressDoc name tasks) =
      ⟨"Not Started".toList, [], tasks, []⟩ := by
  have hpre : List.foldl parseLine ⟨[], [], [], [], false, false⟩
      ["# Progress: ".toList ++ name, [], "## Status: Not Started".toList,
       "## Assigned to:".toList, [], "## Checklist".toList] =
      ⟨"Not Started".toList, [], [], [], true, false⟩ := rfl
  have hsuf : ∀ (s a : GoStr) (ts : List Work.Task) (nl : List GoStr),
      List.foldl parseLine ⟨s, a, ts, nl, true, false⟩ [[], "## Notes".toList] =
      ⟨s, a, ts, nl, false, true⟩ := fun s a ts nl => rfl
  rw [ParseProgress, renderProgressDoc]
  rw [List.foldl_append, List.foldl_append, hpre,
    foldl_parseLine_renderTasks tasks _ rfl rfl hdesc]
  rfl

/-- C7: for every generated progress document with N checklist lines (any
mix of done and not-done in any order, descriptions already trimmed and
newline-free), `ParseProgress` recovers exactly those N tasks in original
document order with correct done flags, and `GetCurrentTask` returns the
description of the first task in document order that is not done, or the
empty string when all tasks are done (or the list is empty). -/
theorem progress_roundtrip (name : GoStr) (tasks : List Work.Task)
    (hdesc : ∀ t ∈ tasks,
      trimSpace t.description = t.description ∧ '\n' ∉ t.description) :
    (ParseProgress (renderProgressDoc name tasks)).tasks = tasks ∧
    ((∀ t ∈ tasks, t.done = true) →
      GetCurrentTask (ParseProgress (renderProgressDoc name tasks)) = []) ∧
    (∀ (pre : List Work.Task) (t : Work.Task) (post : List Work.Task),
      tasks = pre ++ t :: post → (∀ u ∈ pre, u.done = true) → t.done = false →
      GetCurrentTask (ParseProgress (renderProgressDoc name tasks)) =
        t.description) := by
  have h := parseProgress_render name tasks (fun t ht => (hdesc t ht).1)
  rw [h]
  refine ⟨rfl, ?_, ?_⟩
  · intro hall
    exact currentFrom_all_done tasks hall
  · intro pre t post heq hpre ht
    rw [GetCurrentTask]
    rw [show (⟨"Not Started".toList, [], tasks, []⟩ : Work.Progress).tasks = tasks from rfl]
    rw [heq]
    exact currentFrom_first_undone pre t post hpre ht

/-- Witness for C7: a three-task document (done, not-done, done)
round-trips and yields current task `B`. -/
theorem progress_roundtrip_witness :
    (ParseProgress (renderProgressDoc ("demo".toList)
      [⟨true, "A".toList⟩, ⟨false, "B".toList⟩, ⟨true, "C".toList⟩])).tasks =
      [⟨true, "A".toList⟩, ⟨false, "B".toList⟩, ⟨true, "C".toList⟩] ∧
    GetCurrentTask (ParseProgress (renderProgressDoc ("demo".toList)
      [⟨true, "A".toList⟩, ⟨false, "B".toList⟩, ⟨true, "C".toList⟩])) = "B".toList :=
  ⟨(progress_roundtrip ("demo".toList) _ (by decide)).1,
   (progress_roundtrip ("demo".toList) _ (by decide)).2.2
     [⟨true, "A".toList⟩] ⟨false, "B".toList⟩ [⟨true, "C".toList⟩] rfl
     (by decide) rfl⟩

theorem branchExists_iff (g : GitState) (b : GoStr) :
    BranchExists g b = true ↔ b ∈ g.branches := by
  simp [BranchExists]

theorem isOkE_exists {ε α : Type} (e : Except ε α) (h : isOkE e = true) :
    ∃ a, e = .ok a := by
  cases e with
  | ok a => exact ⟨a, rfl⟩
  | error e => simp [isOkE] at h

theorem fallback_isOk_iff (g : GitState) (d : GoStr) :
    isOkE (GetBaseBranch.getBaseBranchFallback g d) = true ↔
    (d ∈ g.branches ∨ "main".toList ∈ g.branches ∨
      "master".toList ∈ g.branches ∨ "develop".toList ∈ g.branches) := by
  rw [GetBaseBranch.getBaseBranchFallback]
  by_cases h1 : BranchExists g d = true
  · rw [if_pos h1]
    exact ⟨fun _ => Or.inl ((branchExists_iff g d).mp h1), fun _ => rfl⟩
  · rw [if_neg h1]
    by_cases h2 : BranchExists g ("main".toList) = true
    · rw [if_pos h2]
      exact ⟨fun _ => Or.inr (Or.inl ((branchExists_iff g _).mp h2)), fun _ => rfl⟩
    · rw [if_neg h2]
      by_cases h3 : BranchExists g ("master".toList) = true
      · rw [if_pos h3]
        exact ⟨fun _ => Or.inr (Or.inr (Or.inl ((branchExists_iff g _).mp h3))),
          fun _ => rfl⟩
      · rw [if_neg h3]
        by_cases h4 : BranchExists g ("develop".toList) = true
        · rw [if_pos h4]
          exact ⟨fun _ => Or.inr (Or.inr (Or.inr ((branchExists_iff g _).mp h4))),
            fun _ => rfl⟩
        · rw [if_neg h4]
          rw [branchExists_iff] at h1 h2 h3 h4
          simp only [isOkE, Bool.false_eq_true, false_iff]
          push_neg
          exact ⟨h1, h2, h3, h4⟩

theorem getBaseBranch_isOk_iff (g : GitState) (d : GoStr) :
    isOkE (GetBaseBranch g d) = true ↔
    ((∃ b, g.remoteHead = some b ∧ b ≠ [] ∧ b ∈ g.branches) ∨
      d ∈ g.branches ∨ "main".toList ∈ g.branches ∨
      "master".toList ∈ g.branches ∨ "develop".toList ∈ g.branches) := by
  obtain ⟨bs, wts, rh⟩ := g
  rcases rh with _ | b
  · rw [GetBaseBranch]
    change isOkE (GetBaseBranch.getBaseBranchFallback ⟨bs, wts, none⟩ d) = true ↔ _
    rw [fallback_isOk_iff]
    simp
  · rw [GetBaseBranch]
    change isOkE (if b ≠ [] ∧ BranchExists ⟨bs, wts, some b⟩ b = true
      then Except.ok b
      else GetBaseBranch.getBaseBranchFallback ⟨bs, wts, some b⟩ d) = true ↔ _
    by_cases hb : b ≠ [] ∧ BranchExists ⟨bs, wts, some b⟩ b = true
    · rw [if_pos hb]
      refine ⟨fun _ => Or.inl ⟨b, rfl, hb.1, (branchExists_iff _ _).mp hb.2⟩,
        fun _ => rfl⟩
    · rw [if_neg hb]
      rw [fallback_isOk_iff]
      constructor
      · intro h
        exact Or.inr h
      · rintro (⟨b2, hb2, hne, hmem⟩ | h)
        · exfalso
          apply hb
          have hbb : b2 = b := Option.some_inj.mp hb2.symm
          subst hbb
          exact ⟨hne, (branchExists_iff _ _).mpr hmem⟩
        · exact h

theorem crewAdd_attach (cfg : Config) (ext : Oracle) (w : World)
    (name rigName b : GoStr)
    (hval : ValidateCrewName name = .ok ())
    (hrepo : IsGitRepo w (cfg.getRepoPath rigName) = true)
    (hbase : GetBaseBranch w.git cfg.defaultBranch = .ok b)
    (hdir : cfg.getCrewPath rigName name ∈ w.dirs)
    (hsess : SessionExists w.sessions (cfg.getCrewSessionName rigName name) = true) :
    Crew.Add cfg ext w name rigName =
      ⟨attachResult ext, w, [.attachSession (cfg.getCrewSessionName rigName name)]⟩ := by
  simp only [Crew.Add, hval, hbase, hrepo, hdir, hsess, not_true, if_false, if_true,
    Bool.true_eq_false, ite_false, ite_true, not_true_eq_false]

theorem crewAdd_recreate (cfg : Config) (ext : Oracle) (w : World)
    (name rigName b : GoStr)
    (hval : ValidateCrewName name = .ok ())
    (hrepo : IsGitRepo w (cfg.getRepoPath rigName) = true)
    (hbase : GetBaseBranch w.git cfg.defaultBranch = .ok b)
    (hdir : cfg.getCrewPath rigName name ∈ w.dirs)
    (hsess : SessionExists w.sessions (cfg.getCrewSessionName rigName name) = false)
    (hok : ext.sessionOk = true) :
    Crew.Add cfg ext w name rigName =
      ⟨attachResult ext,
        { w with sessions :=
            createSessionState w.sessions (cfg.getCrewSessionName rigName name) },
        [.createCrewSession (cfg.getCrewSessionName rigName name)
            (cfg.getCrewPath rigName name),
         .attachSession (cfg.getCrewSessionName rigName name)]⟩ := by
  simp only [Crew.Add, hval, hbase, hrepo, hdir, hsess, hok, not_true, if_false,
    if_true, Bool.false_eq_true, ite_false, ite_true, not_true_eq_false]

theorem crewAdd_fresh (cfg : Config) (ext : Oracle) (w : World)
    (name rigName b : GoStr)
    (hval : ValidateCrewName name = .ok ())
    (hrepo : IsGitRepo w (cfg.getRepoPath rigName) = true)
    (hbase : GetBaseBranch w.git cfg.defaultBranch = .ok b)
    (hdir : cfg.getCrewPath rigName name ∉ w.dirs)
    (hbr : BranchExists w.git (cfg.getCrewBranchName name) = false)
    (hwok : ext.worktreeOk = true)
    (hsok : ext.sessionOk = true) :
    Crew.Add cfg ext w name rigName =
      ⟨attachResult ext,
        { createWorktreeState (mkdirAllState w (cfg.crewBase ++ '/' :: rigName))
            (cfg.getCrewPath rigName name) (cfg.getCrewBranchName name) with
          sessions :=
            createSessionState w.sessions (cfg.getCrewSessionName rigName name) },
        [.mkdirAll (cfg.crewBase ++ '/' :: rigName),
         .createWorktree (cfg.getCrewPath rigName name)
           (cfg.getCrewBranchName name) b,
         .createCrewSession (cfg.getCrewSessionName rigName name)
           (cfg.getCrewPath rigName name),
         .attachSession (cfg.getCrewSessionName rigName name)]⟩ := by
  simp only [Crew.Add, addFinish, hval, hbase, hrepo, hdir, hbr, hwok, hsok,
    mkdirAllState, createWorktreeState, not_true, if_false, if_true,
    Bool.false_eq_true, ite_false, ite_true, not_true_eq_false, not_false_eq_true,
    List.cons_append, List.nil_append]

theorem mem_mkdirAllState (w : World) (d x : GoStr) (h : x ∈ w.dirs) :
    x ∈ (mkdirAllState w d).dirs := by
  rw [mkdirAllState]
  dsimp only
  split
  · exact h
  · exact List.mem_cons_of_mem _ h

/-- C2 (amended): provided the worker name validates, the repository
exists and base-branch resolution succeeds (the Go code resolves the base
branch before its idempotency check, so without a resolvable base branch
`Add` fails even when the worktree and session exist — see the
counterexample), `Add` is idempotent for a (repo, worker) pair whose
worktree directory already exists: with a live session it only attaches,
mutating nothing; without one it recreates only the session, leaving the
worktree and git state untouched; and after a successful fresh `Add`, a
second `Add` returns success having attached only, with the same final
worktree path and branch, no duplicate branch or worktree, and an
unchanged world. -/
theorem add_idempotent_existing_worktree (cfg : Config) (ext : Oracle)
    (w : World) (name rigName : GoStr)
    (hval : ValidateCrewName name = .ok ())
    (hrepo : IsGitRepo w (cfg.getRepoPath rigName) = true)
    (hbase : isOkE (GetBaseBranch w.git cfg.defaultBranch) = true) :
    (cfg.getCrewPath rigName name ∈ w.dirs →
      SessionExists w.sessions (cfg.getCrewSessionName rigName name) = true →
      Crew.Add cfg ext w name rigName =
        ⟨attachResult ext, w,
         [.attachSession (cfg.getCrewSessionName rigName name)]⟩) ∧
    (cfg.getCrewPath rigName name ∈ w.dirs →
      SessionExists w.sessions (cfg.getCrewSessionName rigName name) = false →
      ext.sessionOk = true →
      Crew.Add cfg ext w name rigName =
        ⟨attachResult ext,
         { w with sessions :=
             createSessionState w.sessions (cfg.getCrewSessionName rigName name) },
         [.createCrewSession (cfg.getCrewSessionName rigName name)
             (cfg.getCrewPath rigName name),
          .attachSession (cfg.getCrewSessionName rigName name)]⟩) ∧
    (cfg.getCrewPath rigName name ∉ w.dirs →
      BranchExists w.git (cfg.getCrewBranchName name) = false →
      ext.worktreeOk = true → ext.sessionOk = true → ext.attachOk = true →
      (Crew.Add cfg ext w name rigName).res = .ok () ∧
      Crew.Add cfg ext (Crew.Add cfg ext w name rigName).world name rigName =
        ⟨.ok (), (Crew.Add cfg ext w name rigName).world,
         [.attachSession (cfg.getCrewSessionName rigName name)]⟩) := by
  obtain ⟨b, hb⟩ := isOkE_exists _ hbase
  refine ⟨?_, ?_, ?_⟩
  · intro hdir hsess
    exact crewAdd_attach cfg ext w name rigName b hval hrepo hb hdir hsess
  · intro hdir hsess hok
    exact crewAdd_recreate cfg ext w name rigName b hval hrepo hb hdir hsess hok
  · intro hdir hbr hwok hsok hatt
    rw [crewAdd_fresh cfg ext w name rigName b hval hrepo hb hdir hbr hwok hsok]
    have hres : attachResult ext = .ok () := by rw [attachResult, if_pos hatt]
    refine ⟨hres, ?_⟩
    have hrepo2 : IsGitRepo
        ({ createWorktreeState (mkdirAllState w (cfg.crewBase ++ '/' :: rigName))
            (cfg.getCrewPath rigName name) (cfg.getCrewBranchName name) with
           sessions :=
             createSessionState w.sessions (cfg.getCrewSessionName rigName name) })
        (cfg.getRepoPath rigName) = true := by
      simp only [IsGitRepo, createWorktreeState, mkdirAllState]
      simp only [IsGitRepo] at hrepo
      have hmem := of_decide_eq_true hrepo
      exact decide_eq_true (List.mem_cons_of_mem _ (mem_mkdirAllState w _ _ hmem))
    have hbase2 : isOkE (GetBaseBranch
        ({ createWorktreeState (mkdirAllState w (cfg.crewBase ++ '/' :: rigName))
            (cfg.getCrewPath rigName name) (cfg.getCrewBranchName name) with
           sessions :=
             createSessionState w.sessions (cfg.getCrewSessionName rigName name) }).git
        cfg.defaultBranch) = true := by
      rw [getBaseBranch_isOk_iff]
      rcases (getBaseBranch_isOk_iff w.git cfg.defaultBranch).mp hbase with
        ⟨b2, hb2, hne, hmem⟩ | h | h | h | h
      · exact Or.inl ⟨b2, hb2, hne, List.mem_cons_of_mem _ hmem⟩
      · exact Or.inr (Or.inl (List.mem_cons_of_mem _ h))
      · exact Or.inr (Or.inr (Or.inl (List.mem_cons_of_mem _ h)))
      · exact Or.inr (Or.inr (Or.inr (Or.inl (List.mem_cons_of_mem _ h))))
      · exact Or.inr (Or.inr (Or.inr (Or.inr (List.mem_cons_of_mem _ h))))
    obtain ⟨b2, hb2⟩ := isOkE_exists _ hbase2
    rw [crewAdd_attach cfg ext _ name rigName b2 hval hrepo2 hb2
      (List.mem_cons_self _ _)
      (by simp [SessionExists, createSessionState]), hres]

/-- C2 is refuted as stated: in `worldNoBase`, `bob`'s worktree directory
exists and the session is live, yet `Add` returns an error without even
attaching (empty trace): base-branch resolution runs before the
idempotency check and fails because the repository's branches are only
`trunk` and `bob/work`. -/
theorem add_idempotent_counterexample :
    ("/c/demo/bob".toList ∈ worldNoBase.dirs) ∧
    SessionExists worldNoBase.sessions
      (cfg0.getCrewSessionName ("demo".toList) ("bob".toList)) = true ∧
    isOkE (Crew.Add cfg0 oracleOk worldNoBase ("bob".toList) ("demo".toList)).res
      = false ∧
    (Crew.Add cfg0 oracleOk worldNoBase ("bob".toList) ("demo".toList)).trace = [] := by
  refine ⟨by decide, by decide, by decide, by decide⟩

/-- Witness for C2: attaching to the fully-materialized `bob` workspace
mutates nothing, and a fresh `Add` followed by a second `Add` attaches
with an unchanged world. -/
theorem add_idempotent_existing_worktree_witness :
    Crew.Add cfg0 oracleOk worldFull ("bob".toList) ("demo".toList) =
      ⟨.ok (), worldFull, [.attachSession ("demo@bob".toList)]⟩ ∧
    (Crew.Add cfg0 oracleOk worldFresh ("bob".toList) ("demo".toList)).res = .ok () ∧
    Crew.Add cfg0 oracleOk
        (Crew.Add cfg0 oracleOk worldFresh ("bob".toList) ("demo".toList)).world
        ("bob".toList) ("demo".toList) =
      ⟨.ok (),
       (Crew.Add cfg0 oracleOk worldFresh ("bob".toList) ("demo".toList)).world,
       [.attachSession ("demo@bob".toList)]⟩ := by
  have h1 := (add_idempotent_existing_worktree cfg0 oracleOk worldFull
    ("bob".toList) ("demo".toList) (by decide) (by decide) (by decide)).1
    (by decide) (by decide)
  have h3 := (add_idempotent_existing_worktree cfg0 oracleOk worldFresh
    ("bob".toList) ("demo".toList) (by decide) (by decide) (by decide)).2.2
    (by decide) (by decide) rfl rfl rfl
  exact ⟨by rw [h1]; decide, h3.1, by rw [h3.2]; decide⟩

theorem crewAdd_worktreeFail (cfg : Config) (ext : Oracle) (w : World)
    (name rigName b : GoStr)
    (hval : ValidateCrewName name = .ok ())
    (hrepo : IsGitRepo w (cfg.getRepoPath rigName) = true)
    (hbase : GetBaseBranch w.git cfg.defaultBranch = .ok b)
    (hdir : cfg.getCrewPath rigName name ∉ w.dirs)
    (hbr : BranchExists w.git (cfg.getCrewBranchName name) = false)
    (hwok : ext.worktreeOk = false) :
    Crew.Add cfg ext w name rigName =
      ⟨.error ("failed to create worktree".toList),
       cleanupWorktree (mkdirAllState w (cfg.crewBase ++ '/' :: rigName))
         (cfg.getCrewPath rigName name) (cfg.getCrewBranchName name),
       [.mkdirAll (cfg.crewBase ++ '/' :: rigName),
        .createWorktree (cfg.getCrewPath rigName name)
          (cfg.getCrewBranchName name) b,
        .removeWorktree (cfg.getCrewPath rigName name),
        .pruneWorktrees,
        .deleteBranch (cfg.getCrewBranchName name)]⟩ := by
  simp only [Crew.Add, cleanupTrace, hval, hbase, hrepo, hdir, hbr, hwok,
    mkdirAllState, not_true, if_false, if_true, Bool.false_eq_true, ite_false,
    ite_true, not_true_eq_false, not_false_eq_true, List.cons_append,
    List.nil_append]

theorem crewAdd_existingFail (cfg : Config) (ext : Oracle) (w : World)
    (name rigName b : GoStr)
    (hval : ValidateCrewName name = .ok ())
    (hrepo : IsGitRepo w (cfg.getRepoPath rigName) = true)
    (hbase : GetBaseBranch w.git cfg.defaultBranch = .ok b)
    (hdir : cfg.getCrewPath rigName name ∉ w.dirs)
    (hbr : BranchExists w.git (cfg.getCrewBranchName name) = true)
    (hresp : toLowerStr ext.response ≠ "n".toList)
    (hwe : ext.worktreeFromExistingOk = false) :
    Crew.Add cfg ext w name rigName =
      ⟨.error ("failed to create worktree from existing branch".toList),
       mkdirAllState w (cfg.crewBase ++ '/' :: rigName),
       [.mkdirAll (cfg.crewBase ++ '/' :: rigName),
        .promptUseExistingBranch (cfg.getCrewBranchName name),
        .createWorktreeFromExisting (cfg.getCrewPath rigName name)
          (cfg.getCrewBranchName name)]⟩ := by
  simp only [Crew.Add, hval, hbase, hrepo, hdir, hbr, hresp, hwe,
    mkdirAllState, not_true, if_false, if_true, Bool.false_eq_true, ite_false,
    ite_true, not_true_eq_false, not_false_eq_true, List.cons_append,
    List.nil_append]

theorem crewAdd_sessionFailExisting (cfg : Config) (ext : Oracle) (w : World)
    (name rigName b : GoStr)
    (hval : ValidateCrewName name = .ok ())
    (hrepo : IsGitRepo w (cfg.getRepoPath rigName) = true)
    (hbase : GetBaseBranch w.git cfg.defaultBranch = .ok b)
    (hdir : cfg.getCrewPath rigName name ∉ w.dirs)
    (hbr : BranchExists w.git (cfg.getCrewBranchName name) = true)
    (hresp : toLowerStr ext.response ≠ "n".toList)
    (hwe : ext.worktreeFromExistingOk = true)
    (hsok : ext.sessionOk = false) :
    Crew.Add cfg ext w name rigName =
      ⟨.error ("failed to create session".toList),
       cleanupWorktree
         (createWorktreeFromExistingState
           (mkdirAllState w (cfg.crewBase ++ '/' :: rigName))
           (cfg.getCrewPath rigName name))
         (cfg.getCrewPath rigName name) (cfg.getCrewBranchName name),
       [.mkdirAll (cfg.crewBase ++ '/' :: rigName),
        .promptUseExistingBranch (cfg.getCrewBranchName name),
        .createWorktreeFromExisting (cfg.getCrewPath rigName name)
          (cfg.getCrewBranchName name),
        .createCrewSession (cfg.getCrewSessionName rigName name)
          (cfg.getCrewPath rigName name),
        .removeWorktree (cfg.getCrewPath rigName name),
        .pruneWorktrees,
        .deleteBranch (cfg.getCrewBranchName name)]⟩ := by
  simp only [Crew.Add, addFinish, cleanupTrace, hval, hbase, hrepo, hdir, hbr,
    hresp, hwe, hsok, mkdirAllState, createWorktreeFromExistingState, not_true,
    if_false, if_true, Bool.false_eq_true, ite_false, ite_true,
    not_true_eq_false, not_false_eq_true, List.cons_append, List.nil_append]

theorem crewAdd_sessionFailFresh (cfg : Config) (ext : Oracle) (w : World)
    (name rigName b : GoStr)
    (hval : ValidateCrewName name = .ok ())
    (hrepo : IsGitRepo w (cfg.getRepoPath rigName) = true)
    (hbase : GetBaseBranch w.git cfg.defaultBranch = .ok b)
    (hdir : cfg.getCrewPath rigName name ∉ w.dirs)
    (hbr : BranchExists w.git (cfg.getCrewBranchName name) = false)
    (hwok : ext.worktreeOk = true)
    (hsok : ext.sessionOk = false) :
    Crew.Add cfg ext w name rigName =
      ⟨.error ("failed to create session".toList),
       cleanupWorktree
         (createWorktreeState
           (mkdirAllState w (cfg.crewBase ++ '/' :: rigName))
           (cfg.getCrewPath rigName name) (cfg.getCrewBranchName name))
         (cfg.getCrewPath rigName name) (cfg.getCrewBranchName name),
       [.mkdirAll (cfg.crewBase ++ '/' :: rigName),
        .createWorktree (cfg.getCrewPath rigName name)
          (cfg.getCrewBranchName name) b,
        .createCrewSession (cfg.getCrewSessionName rigName name)
          (cfg.getCrewPath rigName name),
        .removeWorktree (cfg.getCrewPath rigName name),
        .pruneWorktrees,
        .deleteBranch (cfg.getCrewBranchName name)]⟩ := by
  simp only [Crew.Add, addFinish, cleanupTrace, hval, hbase, hrepo, hdir, hbr,
    hwok, hsok, mkdirAllState, createWorktreeState, not_true, if_false, if_true,
    Bool.false_eq_true, ite_false, ite_true, not_true_eq_false,
    not_false_eq_true, List.cons_append, List.nil_append]

theorem cleanupWorktree_branch_gone (w : World) (cp bn : GoStr) :
    bn ∉ (cleanupWorktree w cp bn).git.branches := by
  rw [cleanupWorktree, deleteBranchState]
  simp [List.mem_filter]

/-- C3 (amended): in `Add`'s fresh-create path the rollback behaviour
depends on the branch mode. With a newly created branch, worktree-creation
failure triggers `cleanupWorktree` (remove worktree, prune metadata,
delete the branch). With a reused pre-existing branch, worktree-creation
failure surfaces the error with NO cleanup at all (no removal, no prune,
no branch deletion — the claim's "every partial failure is rolled back"
fails here). Session-creation failure triggers `cleanupWorktree` in both
modes, and that cleanup deletes the branch unconditionally — including a
pre-existing branch the user confirmed to reuse, which the claim says is
preserved (see the counterexample). -/
theorem add_failure_rollback (cfg : Config) (ext : Oracle) (w : World)
    (name rigName b : GoStr)
    (hval : ValidateCrewName name = .ok ())
    (hrepo : IsGitRepo w (cfg.getRepoPath rigName) = true)
    (hbase : GetBaseBranch w.git cfg.defaultBranch = .ok b)
    (hdir : cfg.getCrewPath rigName name ∉ w.dirs) :
    (BranchExists w.git (cfg.getCrewBranchName name) = false →
      ext.worktreeOk = false →
      Crew.Add cfg ext w name rigName =
        ⟨.error ("failed to create worktree".toList),
         cleanupWorktree (mkdirAllState w (cfg.crewBase ++ '/' :: rigName))
           (cfg.getCrewPath rigName name) (cfg.getCrewBranchName name),
         [.mkdirAll (cfg.crewBase ++ '/' :: rigName),
          .createWorktree (cfg.getCrewPath rigName name)
            (cfg.getCrewBranchName name) b,
          .removeWorktree (cfg.getCrewPath rigName name),
          .pruneWorktrees,
          .deleteBranch (cfg.getCrewBranchName name)]⟩) ∧
    (BranchExists w.git (cfg.getCrewBranchName name) = true →
      toLowerStr ext.response ≠ "n".toList →
      ext.worktreeFromExistingOk = false →
      Crew.Add cfg ext w name rigName =
        ⟨.error ("failed to create worktree from existing branch".toList),
         mkdirAllState w (cfg.crewBase ++ '/' :: rigName),
         [.mkdirAll (cfg.crewBase ++ '/' :: rigName),
          .promptUseExistingBranch (cfg.getCrewBranchName name),
          .createWorktreeFromExisting (cfg.getCrewPath rigName name)
            (cfg.getCrewBranchName name)]⟩ ∧
      cfg.getCrewBranchName name ∈
        (Crew.Add cfg ext w name rigName).world.git.branches) ∧
    (BranchExists w.git (cfg.getCrewBranchName name) = true →
      toLowerStr ext.response ≠ "n".toList →
      ext.worktreeFromExistingOk = true → ext.sessionOk = false →
      Crew.Add cfg ext w name rigName =
        ⟨.error ("failed to create session".toList),
         cleanupWorktree
           (createWorktreeFromExistingState
             (mkdirAllState w (cfg.crewBase ++ '/' :: rigName))
             (cfg.getCrewPath rigName name))
           (cfg.getCrewPath rigName name) (cfg.getCrewBranchName name),
         [.mkdirAll (cfg.crewBase ++ '/' :: rigName),
          .promptUseExistingBranch (cfg.getCrewBranchName name),
          .createWorktreeFromExisting (cfg.getCrewPath rigName name)
            (cfg.getCrewBranchName name),
          .createCrewSession (cfg.getCrewSessionName rigName name)
            (cfg.getCrewPath rigName name),
          .removeWorktree (cfg.getCrewPath rigName name),
          .pruneWorktrees,
          .deleteBranch (cfg.getCrewBranchName name)]⟩ ∧
      cfg.getCrewBranchName name ∉
        (Crew.Add cfg ext w name rigName).world.git.branches) ∧
    (BranchExists w.git (cfg.getCrewBranchName name) = false →
      ext.worktreeOk = true → ext.sessionOk = false →
      Crew.Add cfg ext w name rigName =
        ⟨.error ("failed to create session".toList),
         cleanupWorktree
           (createWorktreeState
             (mkdirAllState w (cfg.crewBase ++ '/' :: rigName))
             (cfg.getCrewPath rigName name) (cfg.getCrewBranchName name))
           (cfg.getCrewPath rigName name) (cfg.getCrewBranchName name),
         [.mkdirAll (cfg.crewBase ++ '/' :: rigName),
          .createWorktree (cfg.getCrewPath rigName name)
            (cfg.getCrewBranchName name) b,
          .createCrewSession (cfg.getCrewSessionName rigName name)
            (cfg.getCrewPath rigName name),
          .removeWorktree (cfg.getCrewPath rigName name),
          .pruneWorktrees,
          .deleteBranch (cfg.getCrewBranchName name)]⟩ ∧
      cfg.getCrewBranchName name ∉
        (Crew.Add cfg ext w name rigName).world.git.branches) := by
  refine ⟨?_, ?_, ?_, ?_⟩
  · intro hbr hwok
    exact crewAdd_worktreeFail cfg ext w name rigName b hval hrepo hbase hdir hbr hwok
  · intro hbr hresp hwe
    have he := crewAdd_existingFail cfg ext w name rigName b hval hrepo hbase hdir
      hbr hresp hwe
    refine ⟨he, ?_⟩
    rw [he]
    exact (branchExists_iff w.git _).mp hbr
  · intro hbr hresp hwe hsok
    have he := crewAdd_sessionFailExisting cfg ext w name rigName b hval hrepo
      hbase hdir hbr hresp hwe hsok
    refine ⟨he, ?_⟩
    rw [he]
    exact cleanupWorktree_branch_gone _ _ _
  · intro hbr hwok hsok
    have he := crewAdd_sessionFailFresh cfg ext w name rigName b hval hrepo
      hbase hdir hbr hwok hsok
    refine ⟨he, ?_⟩
    rw [he]
    exact cleanupWorktree_branch_gone _ _ _

/-- C3 is refuted as stated: on `worldBranch` (pre-existing branch
`bob/work`, confirmed for reuse by the default prompt answer), a
session-creation failure deletes the pre-existing branch — the claim says
it is preserved — and a worktree-creation failure in the same mode
performs no rollback call at all (trace ends at the failed creation),
while the claim requires removal and pruning. -/
theorem add_rollback_counterexample :
    ("bob/work".toList ∈ worldBranch.git.branches) ∧
    isOkE (Crew.Add cfg0 oracleSessionFail worldBranch
      ("bob".toList) ("demo".toList)).res = false ∧
    "bob/work".toList ∉ (Crew.Add cfg0 oracleSessionFail worldBranch
      ("bob".toList) ("demo".toList)).world.git.branches ∧
    (Crew.Add cfg0 oracleWtExistingFail worldBranch
      ("bob".toList) ("demo".toList)).trace =
      [.mkdirAll ("/c/demo".toList),
       .promptUseExistingBranch ("bob/work".toList),
       .createWorktreeFromExisting ("/c/demo/bob".toList) ("bob/work".toList)] := by
  refine ⟨by decide, by decide, by decide, by decide⟩

/-- Witness for C3: on `worldBranch`, the session-failure path deletes
the pre-existing branch, and the existing-branch worktree-failure path
makes no removal call. -/
theorem add_failure_rollback_witness :
    Call.deleteBranch ("bob/work".toList) ∈
      (Crew.Add cfg0 oracleSessionFail worldBranch
        ("bob".toList) ("demo".toList)).trace ∧
    "bob/work".toList ∉
      (Crew.Add cfg0 oracleSessionFail worldBranch
        ("bob".toList) ("demo".toList)).world.git.branches ∧
    Call.removeWorktree ("/c/demo/bob".toList) ∉
      (Crew.Add cfg0 oracleWtExistingFail worldBranch
        ("bob".toList) ("demo".toList)).trace := by
  have h3 := (add_failure_rollback cfg0 oracleSessionFail worldBranch
    ("bob".toList) ("demo".toList) ("main".toList)
    (by decide) (by decide) (by decide) (by decide)).2.2.1
    (by decide) (by decide) rfl rfl
  have h2 := (add_failure_rollback cfg0 oracleWtExistingFail worldBranch
    ("bob".toList) ("demo".toList) ("main".toList)
    (by decide) (by decide) (by decide) (by decide)).2.1
    (by decide) (by decide) rfl
  refine ⟨?_, h3.2, ?_⟩
  · rw [h3.1]
    decide
  · rw [h2.1]
    decide

theorem crewRemove_notFound (cfg : Config) (ext : Oracle) (current : GoStr)
    (w : World) (name rigName : GoStr)
    (hval : ValidateCrewName name = .ok ())
    (hrepo : IsGitRepo w (cfg.getRepoPath rigName) = true)
    (hdir : cfg.getCrewPath rigName name ∉ w.dirs)
    (hreg : cfg.getCrewPath rigName name ∉ w.git.worktrees)
    (hsess : SessionExists w.sessions (cfg.getCrewSessionName rigName name) = false) :
    Crew.Remove cfg ext current w name rigName =
      ⟨.error ("crew workspace not found: ".toList ++ cfg.getCrewPath rigName name),
       w, []⟩ := by
  simp only [Crew.Remove, hval, hrepo, hdir, hreg, hsess, not_true, if_false,
    if_true, Bool.false_eq_true, ite_false, ite_true, not_true_eq_false,
    not_false_eq_true, decide_not, decide_eq_true_eq, Bool.and_eq_true,
    Bool.not_eq_true, decide_eq_false_iff_not, Bool.and_self, Bool.not_false,
    Bool.and_true, Bool.true_and, Bool.false_and, Bool.and_false, Bool.not_true,
    decide_False, decide_True, List.nil_append]

theorem crewRemove_sessionOnly (cfg : Config) (ext : Oracle) (current : GoStr)
    (w : World) (name rigName : GoStr)
    (hval : ValidateCrewName name = .ok ())
    (hrepo : IsGitRepo w (cfg.getRepoPath rigName) = true)
    (hdir : cfg.getCrewPath rigName name ∉ w.dirs)
    (hreg : cfg.getCrewPath rigName name ∉ w.git.worktrees)
    (hsess : SessionExists w.sessions (cfg.getCrewSessionName rigName name) = true) :
    Crew.Remove cfg ext current w name rigName =
      ⟨.ok (),
       { w with sessions :=
           killSessionState w.sessions (cfg.getCrewSessionName rigName name) },
       [.killSession (cfg.getCrewSessionName rigName name)]⟩ := by
  simp only [Crew.Remove, hval, hrepo, hdir, hreg, hsess, not_true, if_false,
    if_true, Bool.false_eq_true, ite_false, ite_true, not_true_eq_false,
    not_false_eq_true, decide_not, decide_eq_true_eq, Bool.and_eq_true,
    Bool.not_eq_true, decide_eq_false_iff_not, Bool.and_self, Bool.not_false,
    Bool.and_true, Bool.true_and, Bool.false_and, Bool.and_false, Bool.not_true,
    decide_False, decide_True, List.nil_append]

theorem detached_git_branches (w : World) (p : GoStr) :
    (pruneWorktreesState (removeWorktreeState w p)).git.branches =
      w.git.branches := by
  simp only [pruneWorktreesState, removeWorktreeState]
  split <;> rfl

theorem detached_git_remoteHead (w : World) (p : GoStr) :
    (pruneWorktreesState (removeWorktreeState w p)).git.remoteHead =
      w.git.remoteHead := by
  simp only [pruneWorktreesState, removeWorktreeState]
  split <;> rfl

theorem getBaseBranch_congr (g g' : GitState) (d : GoStr)
    (hb : g'.branches = g.branches) (hr : g'.remoteHead = g.remoteHead) :
    GetBaseBranch g' d = GetBaseBranch g d := by
  obtain ⟨bs, wts, rh⟩ := g
  obtain ⟨bs', wts', rh'⟩ := g'
  simp only at hb hr
  subst hb; subst hr
  rfl

theorem branchExists_congr (g g' : GitState) (b : GoStr)
    (hb : g'.branches = g.branches) :
    BranchExists g' b = BranchExists g b := by
  rw [BranchExists, BranchExists, hb]

theorem isGitRepo_detached (w : World) (p q : GoStr)
    (h : IsGitRepo w q = true) (hne : q ++ "/.git".toList ≠ p) :
    IsGitRepo (pruneWorktreesState (removeWorktreeState w p)) q = true := by
  simp only [IsGitRepo, decide_eq_true_eq] at h ⊢
  simp only [pruneWorktreesState, removeWorktreeState]
  split
  · exact List.mem_filter.mpr ⟨h, by simpa using hne⟩
  · exact h

theorem not_mem_detached_dirs (w : World) (p x : GoStr) (h : x ∉ w.dirs) :
    x ∉ (pruneWorktreesState (removeWorktreeState w p)).dirs := by
  simp only [pruneWorktreesState, removeWorktreeState]
  split
  · intro hc
    exact h (List.mem_filter.mp hc).1
  · exact h

theorem detached_sessions (w : World) (p : GoStr) :
    (pruneWorktreesState (removeWorktreeState w p)).sessions = w.sessions := by
  simp only [pruneWorktreesState, removeWorktreeState]
  split <;> rfl

theorem crewRemove_detachedSession (cfg : Config) (ext : Oracle)
    (current : GoStr) (w : World) (name rigName : GoStr)
    (hval : ValidateCrewName name = .ok ())
    (hrepo : IsGitRepo w (cfg.getRepoPath rigName) = true)
    (hdir : cfg.getCrewPath rigName name ∉ w.dirs)
    (hreg : cfg.getCrewPath rigName name ∈ w.git.worktrees)
    (hsess : SessionExists w.sessions (cfg.getCrewSessionName rigName name) = true) :
    Crew.Remove cfg ext current w name rigName =
      ⟨.ok (),
       { pruneWorktreesState
           (removeWorktreeState w (cfg.getCrewPath rigName name)) with
         sessions :=
           killSessionState w.sessions (cfg.getCrewSessionName rigName name) },
       [.removeWorktree (cfg.getCrewPath rigName name), .pruneWorktrees,
        .killSession (cfg.getCrewSessionName rigName name)]⟩ := by
  simp only [Crew.Remove, hval, hrepo, hdir, hreg, detached_sessions, hsess,
    not_true, if_false, if_true, Bool.false_eq_true, ite_false, ite_true,
    not_true_eq_false, not_false_eq_true, decide_not, decide_eq_true_eq,
    Bool.and_eq_true, Bool.not_eq_true, decide_eq_false_iff_not, Bool.and_self,
    Bool.not_false, Bool.and_true, Bool.true_and, Bool.false_and,
    Bool.and_false, Bool.not_true, decide_False, decide_True, List.nil_append,
    List.cons_append]

theorem crewRemove_detachedNoSession (cfg : Config) (ext : Oracle)
    (current : GoStr) (w : World) (name rigName : GoStr)
    (hval : ValidateCrewName name = .ok ())
    (hrepo : IsGitRepo w (cfg.getRepoPath rigName) = true)
    (hdir : cfg.getCrewPath rigName name ∉ w.dirs)
    (hreg : cfg.getCrewPath rigName name ∈ w.git.worktrees)
    (hsess : SessionExists w.sessions (cfg.getCrewSessionName rigName name) = false) :
    Crew.Remove cfg ext current w name rigName =
      ⟨.error ("crew workspace not found: ".toList ++
          cfg.getCrewPath rigName name),
       pruneWorktreesState (removeWorktreeState w (cfg.getCrewPath rigName name)),
       [.removeWorktree (cfg.getCrewPath rigName name), .pruneWorktrees]⟩ := by
  simp only [Crew.Remove, hval, hrepo, hdir, hreg, detached_sessions, hsess,
    not_true, if_false, if_true, Bool.false_eq_true, ite_false, ite_true,
    not_true_eq_false, not_false_eq_true, decide_not, decide_eq_true_eq,
    Bool.and_eq_true, Bool.not_eq_true, decide_eq_false_iff_not, Bool.and_self,
    Bool.not_false, Bool.and_true, Bool.true_and, Bool.false_and,
    Bool.and_false, Bool.not_true, decide_False, decide_True, List.nil_append,
    List.cons_append]

theorem removeParentStep_git (cfg : Config) (rigName : GoStr)
    (s : World × List Call) :
    (removeParentStep cfg rigName s).1.git = s.1.git := by
  rw [removeParentStep]
  split <;> rfl

theorem removeParentStep_sessions (cfg : Config) (rigName : GoStr)
    (s : World × List Call) :
    (removeParentStep cfg rigName s).1.sessions = s.1.sessions := by
  rw [removeParentStep]
  split <;> rfl

theorem removeParentStep_trace (cfg : Config) (rigName : GoStr)
    (s : World × List Call) :
    (removeParentStep cfg rigName s).2 = s.2 ∨
    (removeParentStep cfg rigName s).2 =
      s.2 ++ [.removeDir (cfg.crewBase ++ '/' :: rigName)] := by
  rw [removeParentStep]
  split
  · right; rfl
  · left; rfl

theorem removeParentStep_dirs_not_mem (cfg : Config) (rigName : GoStr)
    (s : World × List Call) (x : GoStr) (h : x ∉ s.1.dirs) :
    x ∉ (removeParentStep cfg rigName s).1.dirs := by
  rw [removeParentStep]
  split
  · intro hc
    exact h (List.mem_filter.mp hc).1
  · exact h

theorem removeParentStep_no_empty (cfg : Config) (rigName : GoStr)
    (s : World × List Call) :
    ¬((cfg.crewBase ++ '/' :: rigName) ∈ (removeParentStep cfg rigName s).1.dirs ∧
      dirEntries (removeParentStep cfg rigName s).1
        (cfg.crewBase ++ '/' :: rigName) = []) := by
  rw [removeParentStep]
  split
  · rintro ⟨hmem, -⟩
    have := (List.mem_filter.mp hmem).2
    simp at this
  · next h =>
    rintro ⟨hmem, hemp⟩
    apply h
    simp [hmem, hemp]

theorem removeKeepState_sessions (cfg : Config) (w : World)
    (name rigName : GoStr) :
    (removeKeepState cfg w name rigName).sessions =
      killSessionState w.sessions (cfg.getCrewSessionName rigName name) := by
  simp only [removeKeepState, pruneWorktreesState, removeWorktreeState]
  split <;> rfl

theorem removeKeepState_branches (cfg : Config) (w : World)
    (name rigName : GoStr) :
    (removeKeepState cfg w name rigName).git.branches = w.git.branches := by
  simp only [removeKeepState, pruneWorktreesState, removeWorktreeState]
  split <;> rfl

theorem not_mem_pruneRemove_worktrees (w : World) (p : GoStr) :
    p ∉ (pruneWorktreesState (removeWorktreeState w p)).git.worktrees := by
  simp only [pruneWorktreesState, removeWorktreeState]
  split
  · intro hc
    have h2 := (List.mem_filter.mp (List.mem_filter.mp hc).1).2
    simp at h2
  · next h =>
    intro hc
    exact h (List.mem_filter.mp hc).1

theorem not_mem_removed_dirs (w : World) (p : GoStr)
    (hreg : p ∈ w.git.worktrees) :
    p ∉ (pruneWorktreesState (removeWorktreeState w p)).dirs := by
  simp only [pruneWorktreesState, removeWorktreeState, hreg, if_true, ite_true]
  intro hc
  have := (List.mem_filter.mp hc).2
  simp at this

theorem not_mem_killSessionState (ss : List GoStr) (n : GoStr) :
    NormalizeSessionName n ∉ killSessionState ss n := by
  intro hc
  have := (List.mem_filter.mp hc).2
  simp at this

theorem crewRemove_fullConfirm (cfg : Config) (ext : Oracle)
    (current : GoStr) (w : World) (name rigName : GoStr)
    (hval : ValidateCrewName name = .ok ())
    (hrepo : IsGitRepo w (cfg.getRepoPath rigName) = true)
    (hdir : cfg.getCrewPath rigName name ∈ w.dirs)
    (hbr : BranchExists w.git (cfg.getCrewBranchName name) = true)
    (hsess : SessionExists w.sessions (cfg.getCrewSessionName rigName name) = true)
    (hcur : current ≠ cfg.getCrewSessionName rigName name)
    (hresp : toLowerStr ext.response ≠ "n".toList) :
    Crew.Remove cfg ext current w name rigName =
      ⟨.ok (),
       (removeParentStep cfg rigName
         (removeFullState cfg w name rigName, removeFullTrace cfg name rigName)).1,
       (removeParentStep cfg rigName
         (removeFullState cfg w name rigName, removeFullTrace cfg name rigName)).2⟩ := by
  have hcd : decide (current = cfg.getCrewSessionName rigName name) = false :=
    decide_eq_false hcur
  have hrd : decide (toLowerStr ext.response = "n".toList) = false :=
    decide_eq_false hresp
  simp only [Crew.Remove, removeParentStep, removeFullState, removeKeepState,
    removeFullTrace, removeKeepTrace, hval, hrepo, hdir, hbr, hsess, hcd, hrd,
    not_true, if_false, if_true, Bool.false_eq_true, ite_false, ite_true,
    not_true_eq_false, not_false_eq_true, Bool.and_self, Bool.not_false,
    Bool.and_true, Bool.true_and, Bool.false_and, Bool.and_false, Bool.not_true,
    decide_True, List.nil_append, List.cons_append, List.append_nil]

theorem crewRemove_fullDecline (cfg : Config) (ext : Oracle)
    (current : GoStr) (w : World) (name rigName : GoStr)
    (hval : ValidateCrewName name = .ok ())
    (hrepo : IsGitRepo w (cfg.getRepoPath rigName) = true)
    (hdir : cfg.getCrewPath rigName name ∈ w.dirs)
    (hbr : BranchExists w.git (cfg.getCrewBranchName name) = true)
    (hsess : SessionExists w.sessions (cfg.getCrewSessionName rigName name) = true)
    (hcur : current ≠ cfg.getCrewSessionName rigName name)
    (hresp : toLowerStr ext.response = "n".toList) :
    Crew.Remove cfg ext current w name rigName =
      ⟨.ok (),
       (removeParentStep cfg rigName
         (removeKeepState cfg w name rigName, removeKeepTrace cfg name rigName)).1,
       (removeParentStep cfg rigName
         (removeKeepState cfg w name rigName, removeKeepTrace cfg name rigName)).2⟩ := by
  have hcd : decide (current = cfg.getCrewSessionName rigName name) = false :=
    decide_eq_false hcur
  have hrd : decide (toLowerStr ext.response = "n".toList) = true :=
    decide_eq_true hresp
  simp only [Crew.Remove, removeParentStep, removeKeepState,
    removeKeepTrace, hval, hrepo, hdir, hbr, hsess, hcd, hrd,
    not_true, if_false, if_true, Bool.false_eq_true, ite_false, ite_true,
    not_true_eq_false, not_false_eq_true, Bool.and_self, Bool.not_false,
    Bool.and_true, Bool.true_and, Bool.false_and, Bool.and_false, Bool.not_true,
    decide_True, List.nil_append, List.cons_append, List.append_nil]

/-- C4: `Remove` reconciles the four combinations of worktree-directory
presence and backend registration: with both missing and no session it
fails not-found and mutates nothing; with both missing but a live session
it kills only the orphan session and succeeds; with a registered worktree
whose directory is gone (detached) it deregisters and prunes the metadata
first and then proceeds exactly as the directory-missing case, leaving no
registration behind, so a subsequent fresh `Add` against a cooperating
backend succeeds; with the directory present (registered, branch present,
session live, caller outside the session) it succeeds, prompts about
branch deletion before killing the session, removes the worktree, prunes
unconditionally, deletes the branch exactly when the prompt answer is not
`n`, and never leaves the worker parent directory behind empty. -/
theorem remove_reconciles_worktree_states (cfg : Config) (ext ext2 : Oracle)
    (current : GoStr) (w : World) (name rigName b : GoStr)
    (hval : ValidateCrewName name = .ok ())
    (hrepo : IsGitRepo w (cfg.getRepoPath rigName) = true) :
    (cfg.getCrewPath rigName name ∉ w.dirs →
      cfg.getCrewPath rigName name ∉ w.git.worktrees →
      SessionExists w.sessions (cfg.getCrewSessionName rigName name) = false →
      Crew.Remove cfg ext current w name rigName =
        ⟨.error ("crew workspace not found: ".toList ++
            cfg.getCrewPath rigName name), w, []⟩) ∧
    (cfg.getCrewPath rigName name ∉ w.dirs →
      cfg.getCrewPath rigName name ∉ w.git.worktrees →
      SessionExists w.sessions (cfg.getCrewSessionName rigName name) = true →
      Crew.Remove cfg ext current w name rigName =
        ⟨.ok (),
         { w with sessions :=
             killSessionState w.sessions (cfg.getCrewSessionName rigName name) },
         [.killSession (cfg.getCrewSessionName rigName name)]⟩) ∧
    (cfg.getCrewPath rigName name ∉ w.dirs →
      cfg.getCrewPath rigName name ∈ w.git.worktrees →
      (SessionExists w.sessions (cfg.getCrewSessionName rigName name) = true →
        Crew.Remove cfg ext current w name rigName =
          ⟨.ok (),
           { pruneWorktreesState
               (removeWorktreeState w (cfg.getCrewPath rigName name)) with
             sessions :=
               killSessionState w.sessions
                 (cfg.getCrewSessionName rigName name) },
           [.removeWorktree (cfg.getCrewPath rigName name), .pruneWorktrees,
            .killSession (cfg.getCrewSessionName rigName name)]⟩) ∧
      (SessionExists w.sessions (cfg.getCrewSessionName rigName name) = false →
        Crew.Remove cfg ext current w name rigName =
          ⟨.error ("crew workspace not found: ".toList ++
              cfg.getCrewPath rigName name),
           pruneWorktreesState
             (removeWorktreeState w (cfg.getCrewPath rigName name)),
           [.removeWorktree (cfg.getCrewPath rigName name),
            .pruneWorktrees]⟩) ∧
      cfg.getCrewPath rigName name ∉
        (Crew.Remove cfg ext current w name rigName).world.git.worktrees ∧
      (ext2.worktreeOk = true → ext2.sessionOk = true → ext2.attachOk = true →
        GetBaseBranch w.git cfg.defaultBranch = .ok b →
        BranchExists w.git (cfg.getCrewBranchName name) = false →
        cfg.getRepoPath rigName ++ "/.git".toList ≠
          cfg.getCrewPath rigName name →
        (Crew.Add cfg ext2 (Crew.Remove cfg ext current w name rigName).world
            name rigName).res = .ok ())) ∧
    (cfg.getCrewPath rigName name ∈ w.dirs →
      cfg.getCrewPath rigName name ∈ w.git.worktrees →
      BranchExists w.git (cfg.getCrewBranchName name) = true →
      SessionExists w.sessions (cfg.getCrewSessionName rigName name) = true →
      current ≠ cfg.getCrewSessionName rigName name →
      (Crew.Remove cfg ext current w name rigName).res = .ok () ∧
      (∃ t, (Crew.Remove cfg ext current w name rigName).trace =
        .promptDeleteBranch (cfg.getCrewBranchName name) ::
        .killSession (cfg.getCrewSessionName rigName name) :: t) ∧
      NormalizeSessionName (cfg.getCrewSessionName rigName name) ∉
        (Crew.Remove cfg ext current w name rigName).world.sessions ∧
      cfg.getCrewPath rigName name ∉
        (Crew.Remove cfg ext current w name rigName).world.dirs ∧
      cfg.getCrewPath rigName name ∉
        (Crew.Remove cfg ext current w name rigName).world.git.worktrees ∧
      Call.pruneWorktrees ∈ (Crew.Remove cfg ext current w name rigName).trace ∧
      (toLowerStr ext.response ≠ "n".toList →
        Call.deleteBranch (cfg.getCrewBranchName name) ∈
          (Crew.Remove cfg ext current w name rigName).trace ∧
        cfg.getCrewBranchName name ∉
          (Crew.Remove cfg ext current w name rigName).world.git.branches) ∧
      (toLowerStr ext.response = "n".toList →
        Call.deleteBranch (cfg.getCrewBranchName name) ∉
          (Crew.Remove cfg ext current w name rigName).trace ∧
        cfg.getCrewBranchName name ∈
          (Crew.Remove cfg ext current w name rigName).world.git.branches) ∧
      ¬((cfg.crewBase ++ '/' :: rigName) ∈
          (Crew.Remove cfg ext current w name rigName).world.dirs ∧
        dirEntries (Crew.Remove cfg ext current w name rigName).world
          (cfg.crewBase ++ '/' :: rigName) = [])) := by
  refine ⟨?_, ?_, ?_, ?_⟩
  · intro hdir hreg hsess
    exact crewRemove_notFound cfg ext current w name rigName hval hrepo hdir hreg hsess
  · intro hdir hreg hsess
    exact crewRemove_sessionOnly cfg ext current w name rigName hval hrepo hdir hreg hsess
  · intro hdir hreg
    refine ⟨?_, ?_, ?_, ?_⟩
    · intro hsess
      exact crewRemove_detachedSession cfg ext current w name rigName hval hrepo hdir hreg hsess
    · intro hsess
      exact crewRemove_detachedNoSession cfg ext current w name rigName hval hrepo hdir hreg hsess
    · cases hs : SessionExists w.sessions (cfg.getCrewSessionName rigName name)
      · rw [crewRemove_detachedNoSession cfg ext current w name rigName hval hrepo hdir hreg hs]
        dsimp only
        exact not_mem_pruneRemove_worktrees w _
      · rw [crewRemove_detachedSession cfg ext current w name rigName hval hrepo hdir hreg hs]
        dsimp only
        exact not_mem_pruneRemove_worktrees w _
    · intro hwok hsok hatt hbase hbrF hne
      have hrepo2 : IsGitRepo
          (pruneWorktreesState (removeWorktreeState w (cfg.getCrewPath rigName name)))
          (cfg.getRepoPath rigName) = true :=
        isGitRepo_detached w _ _ hrepo hne
      have hbase2 : GetBaseBranch
          (pruneWorktreesState (removeWorktreeState w (cfg.getCrewPath rigName name))).git
          cfg.defaultBranch = .ok b :=
        (getBaseBranch_congr w.git _ cfg.defaultBranch
          (detached_git_branches w _) (detached_git_remoteHead w _)).trans hbase
      have hdir2 : cfg.getCrewPath rigName name ∉
          (pruneWorktreesState (removeWorktreeState w (cfg.getCrewPath rigName name))).dirs :=
        not_mem_detached_dirs w _ _ hdir
      have hbr2 : BranchExists
          (pruneWorktreesState (removeWorktreeState w (cfg.getCrewPath rigName name))).git
          (cfg.getCrewBranchName name) = false :=
        (branchExists_congr w.git _ _ (detached_git_branches w _)).trans hbrF
      cases hs : SessionExists w.sessions (cfg.getCrewSessionName rigName name)
      · rw [crewRemove_detachedNoSession cfg ext current w name rigName hval hrepo hdir hreg hs]
        rw [crewAdd_fresh cfg ext2 _ name rigName b hval hrepo2 hbase2 hdir2 hbr2 hwok hsok]
        simp [attachResult, hatt]
      · have hrepo3 : IsGitRepo
            { pruneWorktreesState
                (removeWorktreeState w (cfg.getCrewPath rigName name)) with
              sessions := killSessionState w.sessions
                (cfg.getCrewSessionName rigName name) }
            (cfg.getRepoPath rigName) = true := hrepo2
        have hbase3 : GetBaseBranch
            ({ pruneWorktreesState
                (removeWorktreeState w (cfg.getCrewPath rigName name)) with
              sessions := killSessionState w.sessions
                (cfg.getCrewSessionName rigName name) } : World).git
            cfg.defaultBranch = .ok b := hbase2
        have hdir3 : cfg.getCrewPath rigName name ∉
            ({ pruneWorktreesState
                (removeWorktreeState w (cfg.getCrewPath rigName name)) with
              sessions := killSessionState w.sessions
                (cfg.getCrewSessionName rigName name) } : World).dirs := hdir2
        have hbr3 : BranchExists
            ({ pruneWorktreesState
                (removeWorktreeState w (cfg.getCrewPath rigName name)) with
              sessions := killSessionState w.sessions
                (cfg.getCrewSessionName rigName name) } : World).git
            (cfg.getCrewBranchName name) = false := hbr2
        rw [crewRemove_detachedSession cfg ext current w name rigName hval hrepo hdir hreg hs]
        dsimp only
        rw [crewAdd_fresh cfg ext2 _ name rigName b hval hrepo3 hbase3 hdir3 hbr3 hwok hsok]
        simp [attachResult, hatt]
  · intro hdir hreg hbr hsess hcur
    by_cases hresp : toLowerStr ext.response = "n".toList
    · rw [crewRemove_fullDecline cfg ext current w name rigName hval hrepo hdir hbr hsess hcur hresp]
      dsimp only
      refine ⟨rfl, ?_, ?_, ?_, ?_, ?_, ?_, ?_, ?_⟩
      · rcases removeParentStep_trace cfg rigName
          (removeKeepState cfg w name rigName, removeKeepTrace cfg name rigName) with h | h
        · exact ⟨[Call.removeWorktree (cfg.getCrewPath rigName name),
            Call.pruneWorktrees], h⟩
        · exact ⟨[Call.removeWorktree (cfg.getCrewPath rigName name),
            Call.pruneWorktrees,
            Call.removeDir (cfg.crewBase ++ '/' :: rigName)], h⟩
      · have h := removeParentStep_sessions cfg rigName
          (removeKeepState cfg w name rigName, removeKeepTrace cfg name rigName)
        rw [show ((removeParentStep cfg rigName
            (removeKeepState cfg w name rigName,
             removeKeepTrace cfg name rigName)).1.sessions =
          killSessionState w.sessions (cfg.getCrewSessionName rigName name))
          from h.trans (removeKeepState_sessions cfg w name rigName)]
        exact not_mem_killSessionState w.sessions _
      · apply removeParentStep_dirs_not_mem
        exact not_mem_removed_dirs { w with sessions := killSessionState w.sessions (cfg.getCrewSessionName rigName name) } _ hreg
      · rw [removeParentStep_git cfg rigName
          (removeKeepState cfg w name rigName, removeKeepTrace cfg name rigName)]
        exact not_mem_pruneRemove_worktrees { w with sessions := killSessionState w.sessions (cfg.getCrewSessionName rigName name) } _
      · rcases removeParentStep_trace cfg rigName
          (removeKeepState cfg w name rigName, removeKeepTrace cfg name rigName) with h | h <;>
          rw [h] <;> simp [removeKeepTrace]
      · intro h'
        exact absurd hresp h'
      · intro _
        constructor
        · rcases removeParentStep_trace cfg rigName
            (removeKeepState cfg w name rigName, removeKeepTrace cfg name rigName) with h | h <;>
            rw [h] <;> simp [removeKeepTrace]
        · rw [removeParentStep_git cfg rigName
            (removeKeepState cfg w name rigName, removeKeepTrace cfg name rigName)]
          rw [show ((removeKeepState cfg w name rigName, removeKeepTrace cfg name rigName).1.git.branches =
              w.git.branches) from removeKeepState_branches cfg w name rigName]
          exact (branchExists_iff w.git _).mp hbr
      · exact removeParentStep_no_empty cfg rigName _
    · rw [crewRemove_fullConfirm cfg ext current w name rigName hval hrepo hdir hbr hsess hcur hresp]
      dsimp only
      refine ⟨rfl, ?_, ?_, ?_, ?_, ?_, ?_, ?_, ?_⟩
      · rcases removeParentStep_trace cfg rigName
          (removeFullState cfg w name rigName, removeFullTrace cfg name rigName) with h | h
        · exact ⟨[Call.removeWorktree (cfg.getCrewPath rigName name),
            Call.pruneWorktrees,
            Call.deleteBranch (cfg.getCrewBranchName name)], h⟩
        · exact ⟨[Call.removeWorktree (cfg.getCrewPath rigName name),
            Call.pruneWorktrees,
            Call.deleteBranch (cfg.getCrewBranchName name),
            Call.removeDir (cfg.crewBase ++ '/' :: rigName)], h⟩
      · have h := removeParentStep_sessions cfg rigName
          (removeFullState cfg w name rigName, removeFullTrace cfg name rigName)
        have h2 : (removeFullState cfg w name rigName).sessions =
            killSessionState w.sessions (cfg.getCrewSessionName rigName name) :=
          removeKeepState_sessions cfg w name rigName
        rw [show ((removeParentStep cfg rigName
            (removeFullState cfg w name rigName,
             removeFullTrace cfg name rigName)).1.sessions =
          killSessionState w.sessions (cfg.getCrewSessionName rigName name))
          from h.trans h2]
        exact not_mem_killSessionState w.sessions _
      · apply removeParentStep_dirs_not_mem
        exact not_mem_removed_dirs { w with sessions := killSessionState w.sessions (cfg.getCrewSessionName rigName name) } _ hreg
      · rw [removeParentStep_git cfg rigName
          (removeFullState cfg w name rigName, removeFullTrace cfg name rigName)]
        exact not_mem_pruneRemove_worktrees { w with sessions := killSessionState w.sessions (cfg.getCrewSessionName rigName name) } _
      · rcases removeParentStep_trace cfg rigName
          (removeFullState cfg w name rigName, removeFullTrace cfg name rigName) with h | h <;>
          rw [h] <;> simp [removeFullTrace, removeKeepTrace]
      · intro _
        constructor
        · rcases removeParentStep_trace cfg rigName
            (removeFullState cfg w name rigName, removeFullTrace cfg name rigName) with h | h <;>
            rw [h] <;> simp [removeFullTrace, removeKeepTrace]
        · rw [removeParentStep_git cfg rigName
            (removeFullState cfg w name rigName, removeFullTrace cfg name rigName)]
          intro hc
          have := (List.mem_filter.mp hc).2
          simp at this
      · intro h'
        exact absurd h' hresp
      · exact removeParentStep_no_empty cfg rigName _

theorem remove_reconciles_worktree_states_witness :
    Crew.Remove cfg0 oracleOk [] worldFresh ("bob".toList) ("demo".toList) =
      ⟨.error ("crew workspace not found: /c/demo/bob".toList),
       worldFresh, []⟩ ∧
    (Crew.Remove cfg0 oracleOk [] worldFull ("bob".toList) ("demo".toList)).res =
      .ok () ∧
    (Crew.Add cfg0 oracleOk
      (Crew.Remove cfg0 oracleOk [] worldDetached ("bob".toList)
        ("demo".toList)).world
      ("bob".toList) ("demo".toList)).res = .ok () := by
  have h1 := remove_reconciles_worktree_states cfg0 oracleOk oracleOk []
    worldFresh ("bob".toList) ("demo".toList) ("main".toList)
    (by decide) (by decide)
  have h2 := remove_reconciles_worktree_states cfg0 oracleOk oracleOk []
    worldFull ("bob".toList) ("demo".toList) ("main".toList)
    (by decide) (by decide)
  have h3 := remove_reconciles_worktree_states cfg0 oracleOk oracleOk []
    worldDetached ("bob".toList) ("demo".toList) ("main".toList)
    (by decide) (by decide)
  refine ⟨?_, ?_, ?_⟩
  · rw [h1.1 (by decide) (by decide) (by decide)]
    decide
  · exact (h2.2.2.2 (by decide) (by decide) (by decide) (by decide)
      (by decide)).1
  · exact (h3.2.2.1 (by decide) (by decide)).2.2.2 rfl rfl rfl
      (by decide) (by decide) (by decide)
